import Mathlib

/-!
Verification development for the `aioartifactory` package.

The package is a bulk artifact-transfer client for an Artifactory-style
binary repository.  Two Python modules carry the behaviour under study:

* `aioartifactory/remotepath.py` — the `RemotePath` value type
  (URL parsing, `repository`/`location` properties, storage-API URL
  construction, listing resolver `get_file_list`, parameter setter).
* `aioartifactory/aioartifactory.py` — the transfer engine
  (`AIOArtifactory.retrieve`, `_retrieve_recursive`, `_retrieve_task`,
  `_download_task`) together with a second, older copy of `RemotePath`
  embedded in that module (the copy the package exports).

The embedding works over `List Char` (named `Str` below) so that every
Python string operation used by the code — `split`, `join`, `lstrip`,
`partition`, `rpartition`, `urllib.parse.urlparse` / `urlunparse` /
`unquote`, `pathlib.PurePath` normalisation — is a computable Lean
function whose behaviour can be checked on concrete inputs.
-/

/-- Python strings are modelled as lists of characters. -/
abbrev Str := List Char

/-- Literal helper: the character list of a Lean string literal. -/
def str (s : String) : Str := s.data

/-- Python `s.split(sep)` for a single-character separator.  Matches the
Python semantics: `"".split("/") = [""]`, `"a//b".split("/") = ["a","","b"]`. -/
def splitChar (sep : Char) : Str → List Str
  | [] => [[]]
  | c :: rest =>
    if c = sep then [] :: splitChar sep rest
    else
      match splitChar sep rest with
      | [] => [[c]]
      | s :: ss => (c :: s) :: ss

/-- Python `sep.join(xs)`. -/
def pyJoin (sep : Str) : List Str → Str
  | [] => []
  | [x] => x
  | x :: y :: rest => x ++ sep ++ pyJoin sep (y :: rest)

/-- Python `s.lstrip(c)` for a single strip character. -/
def lstripChar (c : Char) (s : Str) : Str := s.dropWhile (· == c)

/-- The `after` component of Python `s.rpartition(sep)` (text after the
last occurrence of `sep`; the whole string when `sep` is absent). -/
def rpartitionAfter (sep : Char) (s : Str) : Str :=
  (s.reverse.takeWhile (· != sep)).reverse

/-- The `before` component of Python `s.rpartition(sep)` (text before the
last occurrence of `sep`; empty when `sep` is absent). -/
def rpartitionBefore (sep : Char) (s : Str) : Str :=
  if sep ∈ s then ((s.reverse.dropWhile (· != sep)).reverse).dropLast else []

/-- The `after` component of Python `s.partition(sep)` (text after the
first occurrence of `sep`; empty when `sep` is absent). -/
def partitionAfter (sep : Char) (s : Str) : Str :=
  match s.dropWhile (· != sep) with
  | [] => []
  | _ :: t => t

/-- The separator component of Python `s.partition(sep)`: the separator
itself when present, the empty string otherwise. -/
def partitionSep (sep : Char) (s : Str) : Str :=
  if sep ∈ s then [sep] else []

/-- Hexadecimal value of a character, as used by percent-decoding. -/
def hexVal (c : Char) : Option Nat :=
  if '0' ≤ c ∧ c ≤ '9' then some (c.toNat - '0'.toNat)
  else if 'a' ≤ c ∧ c ≤ 'f' then some (c.toNat - 'a'.toNat + 10)
  else if 'A' ≤ c ∧ c ≤ 'F' then some (c.toNat - 'A'.toNat + 10)
  else none

/-- Model of `urllib.parse.unquote` restricted to single-byte escapes:
each `%XX` escape with two hex digits is decoded to the character with
code `XX`, other text passes through.  (CPython additionally merges
consecutive escaped bytes into UTF-8 sequences; the well-formedness
predicates used in the theorems below exclude `%` from the inputs, where
both semantics agree with the identity.) -/
def pyUnquote : Str → Str
  | [] => []
  | [c] => [c]
  | [c, d] => if c = '%' then '%' :: pyUnquote [d] else c :: pyUnquote [d]
  | c :: a :: b :: rest =>
    if c = '%' then
      match hexVal a, hexVal b with
      | some x, some y => Char.ofNat (16 * x + y) :: pyUnquote rest
      | _, _ => '%' :: pyUnquote (a :: b :: rest)
    else c :: pyUnquote (a :: b :: rest)

/-! ### Basic lemmas about the string primitives -/

theorem takeWhile_append_all {p : Char → Bool} {l1 l2 : Str}
    (h : ∀ a ∈ l1, p a) : (l1 ++ l2).takeWhile p = l1 ++ l2.takeWhile p := by
  induction l1 with
  | nil => simp
  | cons a t ih =>
    simp only [List.cons_append]
    rw [List.takeWhile_cons_of_pos (h a (by simp)), ih (fun a ha => h a (by simp [ha]))]

theorem dropWhile_append_all {p : Char → Bool} {l1 l2 : Str}
    (h : ∀ a ∈ l1, p a) : (l1 ++ l2).dropWhile p = l2.dropWhile p := by
  induction l1 with
  | nil => simp
  | cons a t ih =>
    simp only [List.cons_append]
    rw [List.dropWhile_cons_of_pos (h a (by simp))]
    exact ih (fun a ha => h a (by simp [ha]))

theorem takeWhile_all {p : Char → Bool} {l : Str}
    (h : ∀ a ∈ l, p a) : l.takeWhile p = l := by
  have := @takeWhile_append_all p l [] h
  simpa using this

theorem takeWhile_append_of_stop {p : Char → Bool} {l1 : Str} (l2 : Str)
    (h : ∃ a ∈ l1, ¬ p a) : (l1 ++ l2).takeWhile p = l1.takeWhile p := by
  induction l1 with
  | nil => simp at h
  | cons a t ih =>
    by_cases ha : p a
    · simp only [List.cons_append, List.takeWhile_cons_of_pos ha]
      have : ∃ b ∈ t, ¬ p b := by
        rcases h with ⟨b, hb, hpb⟩
        rcases List.mem_cons.mp hb with hba | hbt
        · exact absurd (hba ▸ ha) hpb
        · exact ⟨b, hbt, hpb⟩
      rw [ih this]
    · simp only [List.cons_append, List.takeWhile_cons_of_neg ha,
        List.takeWhile_cons_of_neg ha]

theorem splitChar_nonempty (sep : Char) (s : Str) : splitChar sep s ≠ [] := by
  induction s with
  | nil => simp [splitChar]
  | cons c rest ih =>
    simp only [splitChar]
    by_cases h : c = sep
    · simp [h]
    · simp only [if_neg h]
      cases hr : splitChar sep rest with
      | nil => simp
      | cons x xs => simp

/-- Splitting distributes over an explicit separator occurrence. -/
theorem splitChar_append (sep : Char) (a b : Str) :
    splitChar sep (a ++ sep :: b) = splitChar sep a ++ splitChar sep b := by
  induction a with
  | nil => simp [splitChar]
  | cons c t ih =>
    simp only [List.cons_append, splitChar]
    by_cases h : c = sep
    · simp [h, ih]
    · simp only [if_neg h]
      simp only [List.append_eq]
      rw [ih]
      cases ht : splitChar sep t with
      | nil => exact absurd ht (splitChar_nonempty sep t)
      | cons x xs => simp

/-- Splitting a string that does not contain the separator yields the
single-element list. -/
theorem splitChar_of_not_mem {sep : Char} {s : Str} (h : sep ∉ s) :
    splitChar sep s = [s] := by
  induction s with
  | nil => simp [splitChar]
  | cons c t ih =>
    simp only [List.mem_cons, not_or] at h
    obtain ⟨h1, h2⟩ := h
    have hcs : ¬ c = sep := fun hc => h1 hc.symm
    simp only [splitChar, if_neg hcs, ih h2]

/-- Joining undoes splitting. -/
theorem join_splitChar (sep : Char) (s : Str) :
    pyJoin [sep] (splitChar sep s) = s := by
  induction s with
  | nil => simp [splitChar, pyJoin]
  | cons c t ih =>
    simp only [splitChar]
    by_cases h : c = sep
    · subst h
      cases ht : splitChar c t with
      | nil => exact absurd ht (splitChar_nonempty c t)
      | cons x xs =>
        rw [ht] at ih
        simp only [if_pos rfl, pyJoin, ih.symm]
        simp [pyJoin]
    · simp only [if_neg h]
      cases ht : splitChar sep t with
      | nil => exact absurd ht (splitChar_nonempty sep t)
      | cons x xs =>
        rw [ht] at ih
        cases xs with
        | nil => simp only [pyJoin] at ih ⊢; rw [ih]
        | cons y ys => simp only [pyJoin, List.cons_append] at ih ⊢; rw [ih]

/-- Every piece of a split avoids the separator. -/
theorem not_mem_of_mem_splitChar {sep : Char} {s x : Str}
    (hx : x ∈ splitChar sep s) : sep ∉ x := by
  induction s generalizing x with
  | nil =>
    simp only [splitChar, List.mem_singleton] at hx
    subst hx; simp
  | cons c t ih =>
    simp only [splitChar] at hx
    by_cases h : c = sep
    · rw [if_pos h] at hx
      rcases List.mem_cons.mp hx with hx0 | hxr
      · subst hx0; simp
      · exact ih hxr
    · rw [if_neg h] at hx
      cases ht : splitChar sep t with
      | nil => exact absurd ht (splitChar_nonempty sep t)
      | cons y ys =>
        rw [ht] at hx
        rcases List.mem_cons.mp hx with hx0 | hxr
        · subst hx0
          intro hmem
          rcases List.mem_cons.mp hmem with hc | hy
          · exact h hc.symm
          · exact ih (ht ▸ List.mem_cons_self y ys) hy
        · exact ih (ht ▸ List.mem_cons_of_mem y hxr)

/-- Splitting undoes joining, provided the separator occurs in no piece. -/
theorem splitChar_join {sep : Char} {xs : List Str} (hne : xs ≠ [])
    (h : ∀ x ∈ xs, sep ∉ x) : splitChar sep (pyJoin [sep] xs) = xs := by
  induction xs with
  | nil => exact absurd rfl hne
  | cons x t ih =>
    cases t with
    | nil =>
      simp only [pyJoin]
      exact splitChar_of_not_mem (h x (by simp))
    | cons y ys =>
      have hx : sep ∉ x := h x (by simp)
      have hrest : pyJoin [sep] (x :: y :: ys) = x ++ sep :: pyJoin [sep] (y :: ys) := by
        simp [pyJoin]
      rw [hrest, splitChar_append, splitChar_of_not_mem hx]
      have := ih (by simp) (fun z hz => h z (by simp [hz]))
      rw [this]
      simp

theorem rpartitionAfter_append {sep : Char} (a b : Str) (h : sep ∉ b) :
    rpartitionAfter sep (a ++ sep :: b) = b := by
  unfold rpartitionAfter
  have hall : ∀ c ∈ b.reverse, ((c != sep) : Bool) := by
    intro c hc
    simp only [List.mem_reverse] at hc
    simp only [bne_iff_ne, ne_eq]
    exact fun hcs => h (hcs ▸ hc)
  rw [List.reverse_append, show (sep :: b).reverse = b.reverse ++ [sep] by simp,
    List.append_assoc, takeWhile_append_all hall]
  simp

theorem rpartitionBefore_append {sep : Char} (a b : Str) (h : sep ∉ b) :
    rpartitionBefore sep (a ++ sep :: b) = a := by
  unfold rpartitionBefore
  rw [if_pos (by simp)]
  have hall : ∀ c ∈ b.reverse, ((c != sep) : Bool) := by
    intro c hc
    simp only [List.mem_reverse] at hc
    simp only [bne_iff_ne, ne_eq]
    exact fun hcs => h (hcs ▸ hc)
  rw [List.reverse_append, show (sep :: b).reverse = b.reverse ++ [sep] by simp,
    List.append_assoc, dropWhile_append_all hall]
  simp

/-- When the separator does not occur, `rpartition` keeps the whole string
in the `after` slot. -/
theorem rpartitionAfter_of_not_mem {sep : Char} {s : Str} (h : sep ∉ s) :
    rpartitionAfter sep s = s := by
  unfold rpartitionAfter
  have hall : ∀ c ∈ s.reverse, ((c != sep) : Bool) := by
    intro c hc
    simp only [List.mem_reverse] at hc
    simp only [bne_iff_ne, ne_eq]
    exact fun hcs => h (hcs ▸ hc)
  rw [takeWhile_all hall]
  simp

theorem rpartitionAfter_cons_of_mem {sep c : Char} {t : Str} (h : sep ∈ t) :
    rpartitionAfter sep (c :: t) = rpartitionAfter sep t := by
  unfold rpartitionAfter
  rw [show (c :: t).reverse = t.reverse ++ [c] by simp]
  rw [takeWhile_append_of_stop _ ⟨sep, by simp [h], by simp⟩]

/-- Default value is irrelevant for `getLastD` of a nonempty list. -/
theorem getLastD_congr {α : Type} {l : List α} (a b : α) (h : l ≠ []) :
    l.getLastD a = l.getLastD b := by
  cases l with
  | nil => exact absurd rfl h
  | cons x xs => simp [List.getLastD]

/-- The `after` slot of `rpartition` is the last piece of the split. -/
theorem rpartitionAfter_eq_getLastD (sep : Char) (s : Str) :
    rpartitionAfter sep s = (splitChar sep s).getLastD [] := by
  induction s with
  | nil => simp [rpartitionAfter, splitChar]
  | cons c t ih =>
    by_cases hm : sep ∈ t
    · rw [rpartitionAfter_cons_of_mem hm, ih]
      simp only [splitChar]
      by_cases h : c = sep
      · rw [if_pos h]
        cases ht : splitChar sep t with
        | nil => exact absurd ht (splitChar_nonempty sep t)
        | cons x xs => simp [List.getLastD]
      · rw [if_neg h]
        cases ht : splitChar sep t with
        | nil => exact absurd ht (splitChar_nonempty sep t)
        | cons x xs =>
          cases hxs : xs with
          | nil =>
            exfalso
            have : splitChar sep t = [x] := by rw [ht, hxs]
            have hjoin := join_splitChar sep t
            rw [this] at hjoin
            simp only [pyJoin] at hjoin
            exact not_mem_of_mem_splitChar (this ▸ List.mem_singleton_self x)
              (hjoin ▸ hm)
          | cons y ys => simp [List.getLastD]
    · by_cases h : c = sep
      · subst h
        have hafter : rpartitionAfter c (c :: t) = t := by
          have := @rpartitionAfter_append c [] t hm
          simpa using this
        rw [hafter]
        simp only [splitChar, if_pos rfl, splitChar_of_not_mem hm]
        simp [List.getLastD]
      · have hnm : sep ∉ c :: t := by
          simp only [List.mem_cons, not_or]
          exact ⟨fun hc => h hc.symm, hm⟩
        rw [rpartitionAfter_of_not_mem hnm, splitChar_of_not_mem hnm]
        simp [List.getLastD]

/-- Identity of `pyUnquote` on percent-free strings. -/
theorem pyUnquote_of_no_percent {s : Str} (h : '%' ∉ s) : pyUnquote s = s := by
  induction s with
  | nil => simp [pyUnquote]
  | cons c t ih =>
    simp only [List.mem_cons, not_or] at h
    have hc : ¬ c = '%' := fun hcc => h.1 hcc.symm
    have ht := ih h.2
    cases t with
    | nil => simp [pyUnquote]
    | cons d u =>
      cases u with
      | nil => simp [pyUnquote, if_neg hc, ht]
      | cons e v =>
        simp only [pyUnquote, if_neg hc]
        exact congrArg (c :: ·) ht

/-! ### The parsed-URL record and a model of `urllib.parse`

`ParseResult` mirrors the 6-tuple returned by `urllib.parse.urlparse`
(the value stored by `RemotePath.__init__` in `self._parse_url`). -/

structure ParseResult where
  scheme : Str
  netloc : Str
  path : Str
  params : Str
  query : Str
  fragment : Str
deriving DecidableEq

/-- ASCII alphabetic character (both cases). -/
def asciiAlpha (c : Char) : Bool :=
  (65 ≤ c.toNat && c.toNat ≤ 90) || (97 ≤ c.toNat && c.toNat ≤ 122)

/-- Characters CPython accepts inside a scheme after the initial letter
(letters, digits, `+`, `-`, `.`). -/
def schemeChar (c : Char) : Bool :=
  asciiAlpha c || (48 ≤ c.toNat && c.toNat ≤ 57) || c = '+' || c = '-' || c = '.'

/-- ASCII lower-casing of one character, as applied by CPython to the
scheme it recognises. -/
def asciiLower (c : Char) : Char :=
  if 65 ≤ c.toNat ∧ c.toNat ≤ 90 then Char.ofNat (c.toNat + 32) else c

/-- Scheme extraction of CPython `urlsplit`: text before the first `:`,
accepted when nonempty, starting with a letter and made of scheme
characters, and lower-cased on the way out. -/
def splitScheme (s : Str) : Str × Str :=
  match s.dropWhile (· != ':') with
  | ':' :: rest =>
    match s.takeWhile (· != ':') with
    | [] => ([], s)
    | c :: pcs =>
      if asciiAlpha c && (c :: pcs).all schemeChar then ((c :: pcs).map asciiLower, rest)
      else ([], s)
  | _ => ([], s)

/-- A character that terminates the network-location slice in CPython
`urlsplit` (`_splitnetloc` scans up to the first of `/`, `?`, `#`). -/
def netlocStop (c : Char) : Bool := c = '/' || c = '?' || c = '#'

/-- Network-location extraction of CPython `urlsplit`: applies only when
the remainder starts with `//`. -/
def splitNetloc (s : Str) : Str × Str :=
  if s.head? = some '/' ∧ s.tail.head? = some '/' then
    ((s.tail.tail).takeWhile (fun c => !netlocStop c),
      (s.tail.tail).dropWhile (fun c => !netlocStop c))
  else ([], s)

/-- Fragment split of CPython `urlsplit`: `url.split('#', 1)`. -/
def splitFragment (s : Str) : Str × Str :=
  if '#' ∈ s then (s.takeWhile (· != '#'), (s.dropWhile (· != '#')).tail) else (s, [])

/-- Query split of CPython `urlsplit`: `url.split('?', 1)` on the part
before the fragment. -/
def splitQuery (s : Str) : Str × Str :=
  if '?' ∈ s then (s.takeWhile (· != '?'), (s.dropWhile (· != '?')).tail) else (s, [])

/-- Parameter split of CPython `urlparse._splitparams`: the matrix
parameters start at the first `;` of the last path segment. -/
def splitParams (s : Str) : Str × Str :=
  if '/' ∈ s then
    if ';' ∈ rpartitionAfter '/' s then
      (rpartitionBefore '/' s ++ '/' :: (rpartitionAfter '/' s).takeWhile (· != ';'),
        ((rpartitionAfter '/' s).dropWhile (· != ';')).tail)
    else (s, [])
  else (s.takeWhile (· != ';'), (s.dropWhile (· != ';')).tail)

/-- Schemes for which CPython `urlparse` performs the parameter split
(`uses_params`), restricted to the entries relevant to an HTTP-addressable
artifact repository. -/
def usesParams : List Str :=
  [str (""), str ("ftp"), str ("http"), str ("https"), str ("imap"), str ("mms"),
   str ("prospero"), str ("rtsp"), str ("rtspu"), str ("sftp"), str ("shttp"),
   str ("sip"), str ("sips"), str ("snews"), str ("svn"), str ("tel"), str ("fax"),
   str ("hdl")]

/-- Model of `urllib.parse.urlparse` for absolute URLs: scheme, then
`//netloc`, then fragment and query splits, then the matrix-parameter
split on the remaining path (only for schemes in `uses_params`). -/
def pyUrlparse (s : Str) : ParseResult :=
  match splitScheme s with
  | (scheme, r1) =>
    match splitNetloc r1 with
    | (netloc, r2) =>
      match splitFragment r2 with
      | (r3, fragment) =>
        match splitQuery r3 with
        | (pathParams, query) =>
          if scheme ∈ usesParams ∧ ';' ∈ pathParams then
            match splitParams pathParams with
            | (path, params) => ⟨scheme, netloc, path, params, query, fragment⟩
          else ⟨scheme, netloc, pathParams, [], query, fragment⟩

/-- Model of `urllib.parse.urlunparse` composed with `urlunsplit`, for
the cases exercised here (credentials-free URL of an HTTP service). -/
def pyUrlunparse (u : ParseResult) : Str :=
  let url1 := if u.params ≠ [] then u.path ++ ';' :: u.params else u.path
  let url2 :=
    if u.netloc ≠ [] then
      '/' :: '/' :: u.netloc ++
        (if url1 ≠ [] ∧ url1.head? ≠ some '/' then '/' :: url1 else url1)
    else url1
  let url3 := if u.scheme ≠ [] then u.scheme ++ ':' :: url2 else url2
  let url4 := if u.query ≠ [] then url3 ++ '?' :: u.query else url3
  if u.fragment ≠ [] then url4 ++ '#' :: u.fragment else url4

/-! ### A model of `pathlib.PurePath` (POSIX flavour)

`RemotePath` subclasses `PurePath` and uses it to normalise joined path
strings (`PurePath(...)`, `.parts`, `.as_posix()`, `str()`). -/

/-- A path component survives `PurePath` parsing when it is nonempty and
not the `.` component. -/
def keepSeg (x : Str) : Bool := !x.isEmpty && x != str (".")

/-- The relative components of a path string (everything after the
root), as computed by `PurePath` parsing. -/
def pureRelParts (s : Str) : List Str := (splitChar '/' s).filter keepSeg

/-- The root component of a POSIX `PurePath`: `//` for exactly two
leading slashes, `/` for one or for three and more, absent otherwise. -/
def pureRoot (s : Str) : Option Str :=
  if s.head? = some '/' then
    if s.tail.head? = some '/' then
      if s.tail.tail.head? = some '/' then some ['/'] else some ['/', '/']
    else some ['/']
  else none

/-- The `parts` tuple of `PurePath(s)`: the root (when present) followed
by the surviving components. -/
def pureParts (s : Str) : List Str :=
  match pureRoot s with
  | some r => r :: pureRelParts s
  | none => pureRelParts s

/-- The string form of `PurePath(s)` (identical to `as_posix()` on a
POSIX flavour): root plus joined components, `.` for an empty relative
path. -/
def pureStr (s : Str) : Str :=
  match pureRoot s with
  | some r => r ++ pyJoin ['/'] (pureRelParts s)
  | none =>
    match pureRelParts s with
    | [] => ['.']
    | ps => pyJoin ['/'] ps

/-- The string form of `PurePath("//", s).as_posix()` for an argument
that does not itself start with `/` — the exact call made by
`_get_storage_api_path` (both copies), whose first argument pins the
root to `//`. -/
def pureDoubleSlash (s : Str) : Str :=
  '/' :: '/' :: pyJoin ['/'] (pureRelParts s)

/-! ### Authentication, errors, and HTTP bookkeeping

Python exceptions relevant to the claims.  `attributeError` models the
`AttributeError` raised when `self._header` / `self._api_key` is read
without ever having been assigned; `keyError` models a missing key in a
parsed JSON body (`data["files"]`); `osError` models `OSError` from the
local filesystem; `fileNotFound` models `FileNotFoundError`. -/

inductive PyErr where
  | attributeError
  | keyError
  | osError
  | fileNotFound
deriving DecidableEq

/-- The authentication header chosen at construction: either
`{"X-JFrog-Art-Api": key}` or `{"Authorization": "Bearer " + token}`. -/
inductive AuthHeader where
  | artApi (key : Str)
  | bearer (token : Str)
deriving DecidableEq

/-- An outbound HTTP request attempt: the URL it targets and the
authentication header attached to it.  Used to show that operations on
credential-less objects fail before any request is made. -/
structure HttpAttempt where
  url : Str
  header : AuthHeader
deriving DecidableEq

/-- Python truthiness of an optional-string keyword argument
(`kwargs.get(...)` is falsy for both a missing argument and an empty
string). -/
def truthy : Option Str → Bool
  | none => false
  | some s => !s.isEmpty

/-! ### `remotepath.py`: the `RemotePath` value type -/

namespace RP

/-- The state a `remotepath.RemotePath.__init__` call leaves behind:
credentials and header exactly as assigned (or never assigned, `none`),
the SSL flag, and the parsed URL. -/
structure RemotePath where
  apiKey : Option Str
  token : Option Str
  header : Option AuthHeader
  ssl : Bool
  parseUrl : ParseResult
deriving DecidableEq

/-- Embedding of `RemotePath.__init__` (remotepath.py lines 60-89):
the `api_key` branch wins over `token`; with neither truthy, none of
`_api_key`, `_token`, `_header` is ever assigned. -/
def remotePathInit (path : Str) (apiKey token : Option Str) (ssl : Bool) : RemotePath :=
  if truthy apiKey then
    { apiKey := apiKey, token := none, header := (apiKey.map .artApi),
      ssl := ssl, parseUrl := pyUrlparse path }
  else if truthy token then
    { apiKey := none, token := token, header := (token.map .bearer),
      ssl := ssl, parseUrl := pyUrlparse path }
  else
    { apiKey := none, token := none, header := none,
      ssl := ssl, parseUrl := pyUrlparse path }

/-- Embedding of `RemotePath.__str__`: `urlunparse(self._parse_url)`. -/
def remotePathStr (rp : RemotePath) : Str := pyUrlunparse rp.parseUrl

/-- Embedding of the `parameter` property getter. -/
def parameter (rp : RemotePath) : Str := rp.parseUrl.params

/-- Embedding of the `parameter` property setter (remotepath.py lines
104-116): `self._parse_url = self._parse_url._replace(params=";".join(
f"{key}={value}" ...))` — only the `params` slot of the named tuple is
replaced. -/
def paramsJoin (d : List (Str × Str)) : Str :=
  pyJoin [';'] (d.map (fun kv => kv.1 ++ '=' :: kv.2))

/-- The `_replace(params=...)` step of the setter on the named tuple. -/
def replaceParams (u : ParseResult) (p : Str) : ParseResult := { u with params := p }

/-- The setter itself: the only field it touches is `parseUrl`, and
within it only `params`. -/
def parameterSet (rp : RemotePath) (d : List (Str × Str)) : RemotePath :=
  { rp with parseUrl := replaceParams rp.parseUrl (paramsJoin d) }

/-- Embedding of the `repository` property:
`unquote(PurePath(self._parse_url.path).parts[2])`.  Indexing a tuple
out of range raises in Python, hence the `Option`. -/
def repository (u : ParseResult) : Option Str :=
  ((pureParts u.path).get? 2).map pyUnquote

/-- Embedding of the `location` property (remotepath.py lines 137-148):
`PurePath(unquote(SEPARATOR.join(PurePath(path).parts[3:]))).as_posix()`. -/
def location (u : ParseResult) : Str :=
  pureStr (pyUnquote (pyJoin ['/'] ((pureParts u.path).drop 3)))

/-- Embedding of `_get_storage_api_path` (remotepath.py lines 268-289):
strip leading separators from the path, split, and rebuild a `//`-rooted
`PurePath` with `api/storage` spliced in after the first segment. -/
def getStorageApiPath (u : ParseResult) : Str :=
  pureDoubleSlash
    (pyJoin ['/']
      ([u.netloc] ++ (splitChar '/' (lstripChar '/' u.path)).take 1 ++
        [str ("api/storage")] ++ (splitChar '/' (lstripChar '/' u.path)).drop 1))

/-- Embedding of the `parse_url_tail` built by `_get_storage_api_url`:
`;params`, `?query`, `#fragment`, each only when nonempty. -/
def parseUrlTail (u : ParseResult) : Str :=
  (if u.params ≠ [] then [';'] else []) ++ u.params ++
  (if u.query ≠ [] then ['?'] else []) ++ u.query ++
  (if u.fragment ≠ [] then ['#'] else []) ++ u.fragment

/-- Embedding of `_get_storage_api_url` (remotepath.py lines 291-317),
POSIX branch (the Windows re-prefixing at lines 297-298 does not apply). -/
def getStorageApiUrl (u : ParseResult) : Str :=
  u.scheme ++ ':' :: getStorageApiPath u ++ parseUrlTail u

/-- The query string `get_file_list` appends to the storage URL. -/
def fileListQuery (recursive : Bool) : Str :=
  (if recursive then str ("list&deep=1") else str ("list")) ++
    str ("&listFolders=0&includeRootPath=0")

/-- Outcome of the storage-listing GET, as seen by the generator: a
status code together with the optional `files` array of the JSON body
(`none` models a body without a `"files"` key, e.g. an error body), or a
transport-level `OSError`. -/
inductive ListingResponse where
  | status (code : Nat) (files : Option (List Str))
  | osFail
deriving DecidableEq

/-- Embedding of `remotepath.RemotePath.get_file_list` (lines 343-386).
The generator's observable behaviour is the list of yielded values
(`none` is the yielded Python `None` sentinel) or a raised exception.

Faithfulness notes, traceable in the source:
* the whole request body sits in `try ... except OSError: yield None`;
* on 400 it yields `SEPARATOR + after` where
  `_, _, after = str(self.location).rpartition(SEPARATOR)` and returns;
* on 404 it raises `FileNotFoundError(...)` — but `FileNotFoundError`
  is a subclass of `OSError`, so the surrounding handler catches it at
  line 384 and the generator yields the `None` sentinel instead of
  propagating the error;
* otherwise it yields `file["uri"]` for each entry of `data["files"]`
  (a missing `"files"` key raises `KeyError`, which is not an `OSError`
  and does propagate). -/
def getFileList (rp : RemotePath) (recursive : Bool) (resp : ListingResponse) :
    Except PyErr (List (Option Str)) × List HttpAttempt :=
  match rp.header with
  | none => (.error .attributeError, [])
  | some h =>
    let att : HttpAttempt :=
      ⟨getStorageApiUrl rp.parseUrl ++ '?' :: fileListQuery recursive, h⟩
    match resp with
    | .osFail => (.ok [none], [att])
    | .status code files =>
      if code = 400 then
        (.ok [some ('/' :: rpartitionAfter '/' (location rp.parseUrl))], [att])
      else if code = 404 then
        (.ok [none], [att])
      else
        match files with
        | some fs => (.ok (fs.map some), [att])
        | none => (.error .keyError, [att])

/-- Embedding of `RemotePath.exists` (remotepath.py lines 319-341):
status 200 means true, any other status false, and a transport `OSError`
is caught and reported as false. -/
def existsOp (rp : RemotePath) (resp : ListingResponse) :
    Except PyErr Bool × List HttpAttempt :=
  match rp.header with
  | none => (.error .attributeError, [])
  | some h =>
    let att : HttpAttempt := ⟨getStorageApiUrl rp.parseUrl, h⟩
    match resp with
    | .osFail => (.ok false, [att])
    | .status code _ => (.ok (code = 200), [att])

/-- Embedding of the `folder` property (remotepath.py lines 169-193):
status 400 means "not a folder"; no `OSError` handler exists there, so a
transport failure propagates. -/
def folderOp (rp : RemotePath) (resp : ListingResponse) :
    Except PyErr Bool × List HttpAttempt :=
  match rp.header with
  | none => (.error .attributeError, [])
  | some h =>
    let att : HttpAttempt :=
      ⟨getStorageApiUrl rp.parseUrl ++ '?' :: str ("list"), h⟩
    match resp with
    | .osFail => (.error .osError, [att])
    | .status code _ => (.ok (code ≠ 400), [att])

/-- Embedding of the checksum properties `md5` / `sha1` / `sha256`
(remotepath.py lines 195-266, all three share this shape): GET the
storage URL and read `data["checksums"][field]`; a missing field raises
`KeyError`; no `OSError` handler exists. -/
def checksumOp (rp : RemotePath) (resp : ListingResponse) (field : Option Str) :
    Except PyErr Str × List HttpAttempt :=
  match rp.header with
  | none => (.error .attributeError, [])
  | some h =>
    let att : HttpAttempt := ⟨getStorageApiUrl rp.parseUrl, h⟩
    match resp with
    | .osFail => (.error .osError, [att])
    | .status _ _ =>
      match field with
      | some v => (.ok v, [att])
      | none => (.error .keyError, [att])

end RP

/-! ### A local filesystem model

`_download_task` touches the local filesystem through
`Path.mkdir(parents=True, exist_ok=True)` and `aiofiles.open(..., "wb")`.
The model tracks the set of existing directories and the regular files
with their contents; paths are absolute `/`-joined strings. -/

structure Fs where
  dirs : List Str
  files : List (Str × Str)
deriving DecidableEq

/-- The `/`-separated components of an absolute path. -/
def pathSegsOf (p : Str) : List Str := splitChar '/' (lstripChar '/' p)

/-- Rebuild an absolute path from components. -/
def joinAbs (segs : List Str) : Str := '/' :: pyJoin ['/'] segs

/-- The chain of ancestors of an absolute path, innermost last, the path
itself included. -/
def dirChain (p : Str) : List Str :=
  (List.range' 1 (pathSegsOf p).length).map (fun k => joinAbs ((pathSegsOf p).take k))

/-- The names of the regular files present. -/
def fileNames (fs : Fs) : List Str := fs.files.map Prod.fst

/-- A directory path is blocked when some component of it already exists
as a regular file — the case in which `mkdir(parents=True, exist_ok=True)`
raises `OSError` even though the directory is missing. -/
def blockedDir (fs : Fs) (p : Str) : Bool :=
  (dirChain p).any (fun q => (fileNames fs).contains q)

/-- Set-semantics insertion into the directory list. -/
def insertNew (acc : List Str) (q : Str) : List Str :=
  if acc.contains q then acc else acc ++ [q]

/-- Model of `Path.mkdir(parents=True, exist_ok=True)`: create every
missing ancestor; an already existing directory is not an error. -/
def mkdirParents (fs : Fs) (p : Str) : Except PyErr Fs :=
  if blockedDir fs p then .error .osError
  else .ok { fs with dirs := (dirChain p).foldl insertNew fs.dirs }

/-- Insert or overwrite a regular file. -/
def setFile (files : List (Str × Str)) (p c : Str) : List (Str × Str) :=
  if (files.map Prod.fst).contains p then
    files.map (fun e => if e.1 = p then (p, c) else e)
  else files ++ [(p, c)]

/-- Model of `aiofiles.open(path, "wb")` followed by writing the whole
response stream: succeeds exactly when the parent directory exists and
the path itself is not a directory, and then stores the content. -/
def openWriteAll (fs : Fs) (p c : Str) : Except PyErr Fs :=
  if fs.dirs.contains (rpartitionBefore '/' p) && !fs.dirs.contains p then
    .ok { fs with files := setFile fs.files p c }
  else .error .osError

/-! ### `aioartifactory.py`: the exported `RemotePath` and the engine

This module carries its own, older `RemotePath` (the one the package
`__init__.py` exports): `location` keeps `parts[2:]` instead of
`parts[3:]`, `__str__` returns the raw stored path, `get_file_list` has
no `404` branch and no `OSError` handler, and the 400 degrade partitions
the location at its first separator. -/

namespace AioEngine

/-- State left by `aioartifactory.RemotePath.__init__` (lines 50-76). -/
structure RemotePath where
  apiKey : Option Str
  token : Option Str
  header : Option AuthHeader
  path : Str
  parseUrl : ParseResult
deriving DecidableEq

/-- Embedding of `aioartifactory.RemotePath.__init__`: same credential
truthiness ladder as the `remotepath.py` copy, plus the raw path kept in
`self._path`. -/
def remotePathInit (path : Str) (apiKey token : Option Str) : RemotePath :=
  if truthy apiKey then
    { apiKey := apiKey, token := none, header := (apiKey.map .artApi),
      path := path, parseUrl := pyUrlparse path }
  else if truthy token then
    { apiKey := none, token := token, header := (token.map .bearer),
      path := path, parseUrl := pyUrlparse path }
  else
    { apiKey := none, token := none, header := none,
      path := path, parseUrl := pyUrlparse path }

/-- Embedding of `aioartifactory.RemotePath.__str__`: the raw path. -/
def remotePathStr (rp : RemotePath) : Str := rp.path

/-- Embedding of `aioartifactory.RemotePath.location` (lines 91-101):
`PurePath(unquote('/'.join(PurePath(self._parse_url.path).parts[2:])))`
— note `parts[2:]`, which keeps the repository segment, unlike the
`remotepath.py` copy. -/
def location (u : ParseResult) : Str :=
  pureStr (pyUnquote (pyJoin ['/'] ((pureParts u.path).drop 2)))

/-- Embedding of `aioartifactory.RemotePath._get_storage_api_path`
(lines 125-145): splits the raw path (leading separator kept, producing
an empty first piece) and splices `api/storage` after `split('/')[:2]`. -/
def getStorageApiPath (u : ParseResult) : Str :=
  pureDoubleSlash
    (pyJoin ['/']
      ([u.netloc] ++ (splitChar '/' u.path).take 2 ++
        [str ("api/storage")] ++ (splitChar '/' u.path).drop 2))

/-- Embedding of `aioartifactory.RemotePath._get_storage_api_url`
(lines 147-170); the tail construction is the same duplicated block as
in `remotepath.py`. -/
def getStorageApiUrl (u : ParseResult) : Str :=
  u.scheme ++ ':' :: getStorageApiPath u ++ RP.parseUrlTail u

/-- The fixed query of `aioartifactory.RemotePath.get_file_list` (lines
184-186): always deep. -/
def fileListQuery : Str := str ("list&deep=1&listFolders=0&includeRootPath=0")

/-- The single URI yielded by the 400 branch (lines 193-198):
`_, separator, after = str(self.location).partition('/')` then
`yield separator + after` — everything after the first separator of the
location (which still begins with the repository name here). -/
def yield400 (u : ParseResult) : Str :=
  partitionSep '/' (location u) ++ partitionAfter '/' (location u)

/-- Embedding of `aioartifactory.RemotePath.get_file_list` (lines
172-203).  Unlike the `remotepath.py` copy there is no `try/except
OSError` (a transport failure propagates), and no `404` branch (a 404
error body without a `"files"` key surfaces as `KeyError` from
`data['files']`). -/
def getFileList (rp : RemotePath) (resp : RP.ListingResponse) :
    Except PyErr (List Str) × List HttpAttempt :=
  match rp.header with
  | none => (.error .attributeError, [])
  | some h =>
    let att : HttpAttempt :=
      ⟨getStorageApiUrl rp.parseUrl ++ '?' :: fileListQuery, h⟩
    match resp with
    | .osFail => (.error .osError, [att])
    | .status code files =>
      if code = 400 then (.ok [yield400 rp.parseUrl], [att])
      else
        match files with
        | some fs => (.ok fs, [att])
        | none => (.error .keyError, [att])

/-- State left by `AIOArtifactory.__init__` (lines 216-235): the same
credential ladder; with neither credential truthy, none of `_api_key`,
`_token`, `_header` is ever assigned. -/
structure Engine where
  apiKey : Option Str
  token : Option Str
  header : Option AuthHeader
deriving DecidableEq

/-- Embedding of `AIOArtifactory.__init__`. -/
def engineInit (apiKey token : Option Str) : Engine :=
  if truthy apiKey then
    { apiKey := apiKey, token := none, header := (apiKey.map .artApi) }
  else if truthy token then
    { apiKey := none, token := token, header := (token.map .bearer) }
  else
    { apiKey := none, token := none, header := none }

/-- Default of the `maximum_connection` parameter
(`DEFAULT_MAXIMUM_CONNECTION` in configuration.py). -/
def DEFAULT_MAXIMUM_CONNECTION : Nat := 10

/-- Embedding of one `_retrieve_task` loop iteration for one dequeued
source (lines 358-388): read `self._api_key` (an `AttributeError` when
it was never assigned, before any request is attempted), construct the
module's own `RemotePath`, iterate its `get_file_list`, and emit
`before + file` for each yielded file, where `before` is the source up
to its last separator. -/
def retrieveTaskOne (e : Engine) (listing : Str → RP.ListingResponse) (source : Str) :
    Except PyErr (List Str) × List HttpAttempt :=
  match e.apiKey with
  | none => (.error .attributeError, [])
  | some k =>
    match getFileList (remotePathInit source (some k) none) (listing source) with
    | (.error er, atts) => (.error er, atts)
    | (.ok files, atts) =>
      (.ok (files.map (fun f => rpartitionBefore '/' source ++ f)), atts)

/-- The discovery stage's aggregate effect: every source of the queue is
processed (the distribution over `min(N, maxConn)` concurrent workers
only affects interleaving, which queue order serialises here); a raised
error fails the whole task group. -/
def discoverAll (e : Engine) (listing : Str → RP.ListingResponse) :
    List Str → Except PyErr (List Str) × List HttpAttempt
  | [] => (.ok [], [])
  | s :: rest =>
    match retrieveTaskOne e listing s with
    | (.error er, atts) => (.error er, atts)
    | (.ok ds, atts) =>
      match discoverAll e listing rest with
      | (.error er, atts2) => (.error er, atts ++ atts2)
      | (.ok ds2, atts2) => (.ok (ds ++ ds2), atts ++ atts2)

/-- Embedding of the per-destination loop of `_download_task` (lines
417-429): `destination / location` is resolved, `mkdir(parents=True,
exist_ok=True)` failures are caught, logged and otherwise ignored, and
then — unconditionally — the file is opened for writing at that same
destination; an error from the open/write is not caught and aborts the
worker. -/
def downloadDestinations (content loc : Str) (fs : Fs) :
    List Str → Except PyErr Fs
  | [] => .ok fs
  | d :: rest =>
    match openWriteAll
      (match mkdirParents fs (rpartitionBefore '/' (d ++ '/' :: loc)) with
        | .ok f => f
        | .error _ => fs)
      (d ++ '/' :: loc) content with
    | .ok f2 => downloadDestinations content loc f2 rest
    | .error er => .error er

/-- Embedding of one `_download_task` loop iteration for one dequeued
item (lines 390-431): read `self._api_key` and `self._header`, GET the
item URL, then write it under every destination root. -/
def downloadOne (e : Engine) (content : Str → Str) (dests : List Str)
    (fs : Fs) (download : Str) : Except PyErr Fs × List HttpAttempt :=
  match e.apiKey with
  | none => (.error .attributeError, [])
  | some k =>
    match e.header with
    | none => (.error .attributeError, [])
    | some h =>
      let rp := remotePathInit download (some k) none
      let att : HttpAttempt := ⟨remotePathStr rp, h⟩
      match downloadDestinations (content download) (location rp.parseUrl) fs dests with
      | .ok f => (.ok f, [att])
      | .error er => (.error er, [att])

/-- The transfer stage's aggregate effect over the download queue. -/
def transferAll (e : Engine) (content : Str → Str) (dests : List Str) :
    Fs → List Str → Except PyErr Fs × List HttpAttempt
  | fs, [] => (.ok fs, [])
  | fs, d :: rest =>
    match downloadOne e content dests fs d with
    | (.error er, atts) => (.error er, atts)
    | (.ok f2, atts) =>
      match transferAll e content dests f2 rest with
      | (.error er, atts2) => (.error er, atts ++ atts2)
      | (.ok f3, atts2) => (.ok f3, atts ++ atts2)

/-- Observable outcome of `_retrieve_recursive`. -/
structure RecursiveRun where
  discoveryWorkers : Nat
  downloads : List Str
  transferWorkers : Nat
  fs : Fs
deriving DecidableEq

/-- Embedding of `_retrieve_recursive` (lines 288-348).  The discovery
task group spawns `min(len(source_list), maximum_connection)` workers;
with zero workers nothing drains the source queue and the group ends at
once.  The transfer group then spawns `min(download_queue.qsize(),
maximum_connection)` workers — `qsize` at that point is exactly the
number of items discovery enqueued — and with zero workers the queue is
likewise left untouched. -/
def retrieveRecursive (e : Engine) (listing : Str → RP.ListingResponse)
    (content : Str → Str) (fs : Fs) (sources dests : List Str) (maxConn : Nat) :
    Except PyErr RecursiveRun × List HttpAttempt :=
  if min sources.length maxConn = 0 then
    (.ok ⟨min sources.length maxConn, [], 0, fs⟩, [])
  else
    match discoverAll e listing sources with
    | (.error er, atts) => (.error er, atts)
    | (.ok downloads, atts) =>
      if min downloads.length maxConn = 0 then
        (.ok ⟨min sources.length maxConn, downloads, min downloads.length maxConn, fs⟩, atts)
      else
        match transferAll e content dests fs downloads with
        | (.error er, atts2) => (.error er, atts ++ atts2)
        | (.ok fs2, atts2) =>
          (.ok ⟨min sources.length maxConn, downloads, min downloads.length maxConn, fs2⟩,
            atts ++ atts2)

/-- A `str | list[str]` argument, as `retrieve` accepts for both
`source` and `destination`. -/
inductive StrOrList where
  | one (s : Str)
  | many (l : List Str)
deriving DecidableEq

/-- The scalar-to-list normalisation at the top of `retrieve` (lines
263-267): `if isinstance(x, str): x = [x]`. -/
def normalizeArg : StrOrList → List Str
  | .one s => [s]
  | .many l => l

/-- Observable outcome of `retrieve`: the stage bookkeeping, the final
filesystem, and the function's return value.  `retrieve` has no
`return` statement, so the Python call always evaluates to `None` —
modelled by `returned` being constantly `none`. -/
structure RetrieveOut where
  discoveryWorkers : Nat
  downloads : List Str
  transferWorkers : Nat
  fs : Fs
  returned : Option (List Str)
deriving DecidableEq

/-- Embedding of `AIOArtifactory.retrieve` (lines 237-286): normalise
scalar arguments, open the pooled session, and — only when `recursive`
is true — run `_retrieve_recursive`; nothing else happens, and nothing
is returned. -/
def retrieve (e : Engine) (listing : Str → RP.ListingResponse)
    (content : Str → Str) (fs : Fs) (source destination : StrOrList)
    (maxConn : Nat) (quiet recursive : Bool) :
    Except PyErr RetrieveOut × List HttpAttempt :=
  if recursive then
    match retrieveRecursive e listing content fs
      (normalizeArg source) (normalizeArg destination) maxConn with
    | (.error er, atts) => (.error er, atts)
    | (.ok r, atts) =>
      (.ok ⟨r.discoveryWorkers, r.downloads, r.transferWorkers, r.fs, none⟩, atts)
  else (.ok ⟨0, [], 0, fs, none⟩, [])

end AioEngine

/-- Decidable equality for `Except`, needed to settle concrete runs of
the embedded operations by `decide`. -/
instance exceptDecEq {e a : Type} [DecidableEq e] [DecidableEq a] :
    DecidableEq (Except e a) := fun x y =>
  match x, y with
  | .ok v, .ok w => if h : v = w then isTrue (by rw [h]) else isFalse (by simp [h])
  | .error v, .error w => if h : v = w then isTrue (by rw [h]) else isFalse (by simp [h])
  | .ok _, .error _ => isFalse (by simp)
  | .error _, .ok _ => isFalse (by simp)

/-! ### Claim C9 — the parameter setter is a pure params-frame update -/

/-- C9: a `RemotePath` is only ever mutated by the `parameter` setter,
and the setter rewrites exactly the matrix-parameter (`params`) slot of
the stored parsed URL — scheme, network location, path, query and
fragment are untouched, the credential and SSL state is untouched, the
getter observes the joined dictionary, and `str()` renders the updated
parse result through `urlunparse`. -/
theorem parameter_set_params_frame (rp : RP.RemotePath) (d : List (Str × Str)) :
    (RP.parameterSet rp d).parseUrl.scheme = rp.parseUrl.scheme ∧
    (RP.parameterSet rp d).parseUrl.netloc = rp.parseUrl.netloc ∧
    (RP.parameterSet rp d).parseUrl.path = rp.parseUrl.path ∧
    (RP.parameterSet rp d).parseUrl.query = rp.parseUrl.query ∧
    (RP.parameterSet rp d).parseUrl.fragment = rp.parseUrl.fragment ∧
    (RP.parameterSet rp d).parseUrl.params = RP.paramsJoin d ∧
    (RP.parameterSet rp d).apiKey = rp.apiKey ∧
    (RP.parameterSet rp d).token = rp.token ∧
    (RP.parameterSet rp d).header = rp.header ∧
    (RP.parameterSet rp d).ssl = rp.ssl ∧
    RP.parameter (RP.parameterSet rp d) = RP.paramsJoin d ∧
    RP.remotePathStr (RP.parameterSet rp d) =
      pyUrlunparse (RP.replaceParams rp.parseUrl (RP.paramsJoin d)) := by
  simp [RP.parameterSet, RP.replaceParams, RP.parameter, RP.remotePathStr]

/-! ### Claim C8 — a transport-level OS error degrades to one sentinel -/

/-- C8: whenever the listing request itself fails with a transport-level
`OSError`, `get_file_list` does not raise: the `except OSError` handler
makes the generator yield exactly one `None` sentinel and terminate. -/
theorem file_list_os_error_yields_one_sentinel (rp : RP.RemotePath)
    (hd : AuthHeader) (recursive : Bool) (h : rp.header = some hd) :
    (RP.getFileList rp recursive .osFail).fst = .ok [none] := by
  simp [RP.getFileList, h]

/-- Witness for C8 at a concrete credentialed remote path. -/
theorem file_list_os_error_yields_one_sentinel_witness :
    (RP.remotePathInit (str ("https://example.com/artifactory/repo/a.txt"))
        (some (str ("key"))) none true).header = some (.artApi (str ("key"))) ∧
    (RP.getFileList
        (RP.remotePathInit (str ("https://example.com/artifactory/repo/a.txt"))
          (some (str ("key"))) none true) true .osFail).fst = .ok [none] :=
  ⟨by decide,
    file_list_os_error_yields_one_sentinel _ (.artApi (str ("key"))) true (by decide)⟩

/-! ### Claim C3 — the 400 degrade yields the location's trailing segment -/

/-- C3 (amended): on a 400 storage-listing response,
`remotepath.RemotePath.get_file_list` yields exactly one URI and
terminates, and that URI is the separator followed by the trailing
segment of `location` (the piece after the last separator) — not by
everything after the repository name, which for a nested file is a
longer suffix. -/
theorem file_list_400_yields_trailing_segment (rp : RP.RemotePath)
    (hd : AuthHeader) (recursive : Bool) (files : Option (List Str))
    (h : rp.header = some hd) :
    (RP.getFileList rp recursive (.status 400 files)).fst =
      .ok [some ('/' :: (splitChar '/' (RP.location rp.parseUrl)).getLastD [])] := by
  simp [RP.getFileList, h, rpartitionAfter_eq_getLastD]

/-- Sample nested-file URL for claim C3: its `location` (remotepath.py
semantics) is `dir/file.txt`, so the trailing segment `file.txt` and
the everything-after-the-repository suffix `dir/file.txt` differ. -/
def sampleC3 : RP.RemotePath :=
  RP.remotePathInit (str ("https://example.com/artifactory/repo/dir/file.txt"))
    (some (str ("key"))) none true

/-- Witness for the amended C3 at the sample nested file. -/
theorem file_list_400_yields_trailing_segment_witness :
    sampleC3.header = some (.artApi (str ("key"))) ∧
    (RP.getFileList sampleC3 true (.status 400 none)).fst =
      .ok [some ('/' :: (splitChar '/' (RP.location sampleC3.parseUrl)).getLastD [])] :=
  ⟨by decide,
    file_list_400_yields_trailing_segment sampleC3 (.artApi (str ("key"))) true none
      (by decide)⟩

/-- Counterexample to C3 as stated: the claim equates the yielded URI
with "everything after the repository name in the location path,
prefixed by the separator".  For `remotepath.py` the location already is
everything after the repository name (`dir/file.txt` here), yet the 400
branch yields only `/file.txt`, the trailing segment — the two readings
disagree on any nested file. -/
theorem file_list_400_not_after_repository :
    RP.location sampleC3.parseUrl = str ("dir/file.txt") ∧
    (RP.getFileList sampleC3 true (.status 400 none)).fst =
      .ok [some (str ("/file.txt"))] ∧
    (RP.getFileList sampleC3 true (.status 400 none)).fst ≠
      .ok [some ('/' :: RP.location sampleC3.parseUrl)] := by decide

/-! ### Claim C4 — 404 handling

In `remotepath.py` the 404 branch raises `FileNotFoundError`, but that
exception is a subclass of `OSError` and the generator's own
`except OSError` handler at line 384 catches it and yields the `None`
sentinel instead (the not-found error never escapes).  The copy of
`get_file_list` inside `aioartifactory.py` — the one `retrieve` actually
calls — has no 404 branch at all: the 404 error body has no `"files"`
key, so `data['files']` raises `KeyError`, not a not-found error.  In
both cases no file list is produced, but neither surfaces the promised
not-found error. -/

/-- Sample remote path (remotepath.py copy) for claim C4. -/
def sampleC4rp : RP.RemotePath :=
  RP.remotePathInit (str ("https://example.com/artifactory/repo/missing.txt"))
    (some (str ("key"))) none true

/-- Sample remote path (aioartifactory.py copy) for claim C4. -/
def sampleC4aio : AioEngine.RemotePath :=
  AioEngine.remotePathInit (str ("https://example.com/artifactory/repo/missing.txt"))
    (some (str ("key"))) none

/-- C4, evaluated at the failing input: a 404 listing response (whose
JSON body carries no `"files"` array) makes `remotepath.py`'s
`get_file_list` yield the `None` sentinel — not raise — and makes the
`aioartifactory.py` copy raise `KeyError` rather than a not-found
error. -/
theorem file_list_404_swallowed :
    (RP.getFileList sampleC4rp true (.status 404 none)).fst = .ok [none] ∧
    (RP.getFileList sampleC4rp true (.status 404 none)).fst ≠
      .error .fileNotFound ∧
    (AioEngine.getFileList sampleC4aio (.status 404 none)).fst = .error .keyError := by
  decide

/-! ### Claim C7 — directory creation is idempotent, but a failed
destination is not skipped -/

/-- Well-formed filesystem state: the directory set is closed under
ancestors and no directory name is simultaneously a regular file. -/
def fsWf (fs : Fs) : Bool :=
  fs.dirs.all (fun d => (dirChain d).all (fun q => fs.dirs.contains q)) &&
  fs.dirs.all (fun d => !(fileNames fs).contains d)

theorem mem_foldl_insertNew_left {q : Str} (chain : List Str) {acc : List Str}
    (h : q ∈ acc) : q ∈ chain.foldl insertNew acc := by
  induction chain generalizing acc with
  | nil => simpa using h
  | cons x rest ih =>
    simp only [List.foldl_cons]
    apply ih
    unfold insertNew
    split
    · exact h
    · exact List.mem_append_left _ h

theorem mem_foldl_insertNew {q : Str} {chain : List Str} (acc : List Str)
    (h : q ∈ chain) : q ∈ chain.foldl insertNew acc := by
  induction chain generalizing acc with
  | nil => simp at h
  | cons x rest ih =>
    simp only [List.foldl_cons]
    rcases List.mem_cons.mp h with hq | hq
    · subst hq
      apply mem_foldl_insertNew_left
      unfold insertNew
      split
      · next hc => simpa using hc
      · exact List.mem_append_right _ (by simp)
    · exact ih _ hq

theorem foldl_insertNew_of_subset {chain acc : List Str}
    (h : ∀ q ∈ chain, q ∈ acc) : chain.foldl insertNew acc = acc := by
  induction chain with
  | nil => simp
  | cons x rest ih =>
    simp only [List.foldl_cons]
    have hx : insertNew acc x = acc := by
      unfold insertNew
      rw [if_pos (by simpa using h x (by simp))]
    rw [hx]
    exact ih (fun q hq => h q (by simp [hq]))

/-- C7 (amended): `destination_path.parent.mkdir(parents=True,
exist_ok=True)` is idempotent and does not fail when the directory
already exists; but when it raises an `OSError` the worker does not
skip that destination — after logging, the code still opens the file at
that very destination, and the open's failure (uncaught) aborts the
worker, so the remaining destinations are not processed either. -/
theorem mkdir_idempotent_failed_destination_not_skipped :
    (∀ fs p fs2, mkdirParents fs p = .ok fs2 → mkdirParents fs2 p = .ok fs2) ∧
    (∀ fs p, fsWf fs = true → fs.dirs.contains p = true →
      mkdirParents fs p = .ok fs) ∧
    (∀ fs d rest loc content er, fsWf fs = true →
      mkdirParents fs (rpartitionBefore '/' (d ++ '/' :: loc)) = .error er →
      AioEngine.downloadDestinations content loc fs (d :: rest) = .error .osError) := by
  refine ⟨?_, ?_, ?_⟩
  · intro fs p fs2 h
    unfold mkdirParents at h ⊢
    by_cases hb : blockedDir fs p
    · rw [if_pos hb] at h
      exact absurd h (by simp)
    · rw [if_neg hb] at h
      have hfs2 : fs2 = { fs with dirs := (dirChain p).foldl insertNew fs.dirs } := by
        have := h
        simp only [Except.ok.injEq] at this
        exact this.symm
      have hb2 : ¬ blockedDir fs2 p := by
        unfold blockedDir at hb ⊢
        rw [hfs2]
        simpa [fileNames] using hb
      rw [if_neg hb2]
      have hsub : ∀ q ∈ dirChain p, q ∈ fs2.dirs := by
        intro q hq
        rw [hfs2]
        exact mem_foldl_insertNew _ hq
      rw [foldl_insertNew_of_subset hsub]
  · intro fs p hwf hp
    unfold fsWf at hwf
    simp only [Bool.and_eq_true, List.all_eq_true] at hwf
    obtain ⟨hclosed, hdisj⟩ := hwf
    have hpmem : p ∈ fs.dirs := by simpa using hp
    have hchain : ∀ q ∈ dirChain p, q ∈ fs.dirs := by
      intro q hq
      have := hclosed p hpmem
      simp only [List.all_eq_true] at this
      simpa using this q hq
    have hb : ¬ blockedDir fs p := by
      unfold blockedDir
      simp only [List.any_eq_true, not_exists]
      intro q
      rintro ⟨hq, hqf⟩
      have hqd := hchain q hq
      have := hdisj q hqd
      simp only [Bool.not_eq_true'] at this
      rw [this] at hqf
      exact absurd hqf (by simp)
    unfold mkdirParents
    rw [if_neg hb, foldl_insertNew_of_subset hchain]
  · intro fs d rest loc content er hwf hmk
    unfold fsWf at hwf
    simp only [Bool.and_eq_true, List.all_eq_true] at hwf
    obtain ⟨hclosed, hdisj⟩ := hwf
    have hblocked : blockedDir fs (rpartitionBefore '/' (d ++ '/' :: loc)) = true := by
      unfold mkdirParents at hmk
      by_cases hb : blockedDir fs (rpartitionBefore '/' (d ++ '/' :: loc))
      · exact hb
      · rw [if_neg hb] at hmk
        exact absurd hmk (by simp)
    have hnotdir : ¬ (rpartitionBefore '/' (d ++ '/' :: loc)) ∈ fs.dirs := by
      intro hmem
      unfold blockedDir at hblocked
      simp only [List.any_eq_true] at hblocked
      obtain ⟨q, hq, hqf⟩ := hblocked
      have hcl := hclosed _ hmem
      simp only [List.all_eq_true] at hcl
      have hqd : q ∈ fs.dirs := by simpa using hcl q hq
      have := hdisj q hqd
      simp only [Bool.not_eq_true'] at this
      rw [this] at hqf
      exact absurd hqf (by simp)
    unfold AioEngine.downloadDestinations
    rw [hmk]
    unfold openWriteAll
    have hcontains : fs.dirs.contains (rpartitionBefore '/' (d ++ '/' :: loc)) = false := by
      simpa using hnotdir
    rw [hcontains]
    simp

/-- Witness for the amended C7: idempotence observed on a concrete
filesystem, the exist-ok behaviour on an existing directory, and the
abort after a failed directory creation. -/
theorem mkdir_idempotent_failed_destination_not_skipped_witness :
    mkdirParents ⟨[str ("/out")], []⟩ (str ("/out/a")) =
      .ok ⟨[str ("/out"), str ("/out/a")], []⟩ ∧
    mkdirParents ⟨[str ("/out"), str ("/out/a")], []⟩ (str ("/out/a")) =
      .ok ⟨[str ("/out"), str ("/out/a")], []⟩ ∧
    fsWf ⟨[str ("/out"), str ("/out/a")], []⟩ = true ∧
    fsWf ⟨[str ("/out2")], [(str ("/out1/repo"), str ("x"))]⟩ = true ∧
    mkdirParents ⟨[str ("/out2")], [(str ("/out1/repo"), str ("x"))]⟩
      (rpartitionBefore '/' (str ("/out1") ++ '/' :: str ("repo/a.txt"))) =
      .error .osError ∧
    AioEngine.downloadDestinations (str ("data")) (str ("repo/a.txt"))
      ⟨[str ("/out2")], [(str ("/out1/repo"), str ("x"))]⟩
      [str ("/out1"), str ("/out2")] = .error .osError :=
  ⟨by decide, by decide, by decide, by decide, by decide,
    mkdir_idempotent_failed_destination_not_skipped.2.2
      ⟨[str ("/out2")], [(str ("/out1/repo"), str ("x"))]⟩
      (str ("/out1")) [str ("/out2")] (str ("repo/a.txt")) (str ("data")) .osError
      (by decide) (by decide)⟩

/-- Sample filesystem for the C7 counterexample: `/out1/repo` exists as
a regular file (so creating directory `/out1/repo` fails), while
`/out2` is a usable destination root. -/
def fsC7 : Fs := ⟨[str ("/out2")], [(str ("/out1/repo"), str ("x"))]⟩

/-- Counterexample to C7 as stated: with destinations `/out1` (whose
directory creation fails) and `/out2` (fully usable), the claim's
"skip that destination and continue with the remaining destinations"
would give a successful run that writes `/out2/repo/a.txt`; the code
instead aborts the item with an `OSError` and never reaches `/out2` —
shown by the same item succeeding when `/out1` is removed from the
list. -/
theorem download_failed_destination_aborts :
    AioEngine.downloadDestinations (str ("data")) (str ("repo/a.txt")) fsC7
      [str ("/out1"), str ("/out2")] = .error .osError ∧
    AioEngine.downloadDestinations (str ("data")) (str ("repo/a.txt")) fsC7
      [str ("/out2")] =
      .ok ⟨[str ("/out2"), str ("/out2/repo")],
        [(str ("/out1/repo"), str ("x")), (str ("/out2/repo/a.txt"), str ("data"))]⟩ := by
  decide

/-! ### Claim C5 — stage worker counts -/

/-- C5: whenever `_retrieve_recursive` completes, the discovery task
group spawned exactly `min(len(source_list), maximum_connection)`
workers and the transfer task group exactly `min(qsize, maximum_connection)`
where `qsize` is the number of queued downloads; with an empty source
list (or an empty download queue) the respective stage spawns zero
workers and finishes with no effect. -/
theorem stage_worker_counts (e : AioEngine.Engine) (listing : Str → RP.ListingResponse)
    (content : Str → Str) (fs : Fs) (sources dests : List Str) (maxConn : Nat)
    (r : AioEngine.RecursiveRun) (hmc : 1 ≤ maxConn)
    (hrun : (AioEngine.retrieveRecursive e listing content fs sources dests maxConn).fst
      = .ok r) :
    r.discoveryWorkers = min sources.length maxConn ∧
    r.transferWorkers = min r.downloads.length maxConn ∧
    (sources = [] → r.discoveryWorkers = 0 ∧ r.downloads = [] ∧ r.fs = fs) ∧
    (r.downloads = [] → r.transferWorkers = 0 ∧ r.fs = fs) := by
  unfold AioEngine.retrieveRecursive at hrun
  by_cases h0 : min sources.length maxConn = 0
  · rw [if_pos h0] at hrun
    simp only [Except.ok.injEq] at hrun
    subst hrun
    have hs : sources = [] := by
      rcases Nat.min_eq_zero_iff.mp h0 with h | h
      · exact List.length_eq_zero.mp h
      · omega
    refine ⟨by simp, by simp, fun _ => ⟨by simp [h0], rfl, rfl⟩, fun _ => ⟨rfl, rfl⟩⟩
  · rw [if_neg h0] at hrun
    have hsne : sources ≠ [] := by
      intro hs
      exact h0 (by simp [hs])
    cases hd : AioEngine.discoverAll e listing sources with
    | mk exc atts1 =>
      rw [hd] at hrun
      cases exc with
      | error er => simp at hrun
      | ok downloads =>
        dsimp only at hrun
        by_cases h1 : min downloads.length maxConn = 0
        · rw [if_pos h1] at hrun
          simp only [Except.ok.injEq] at hrun
          subst hrun
          have hdl : downloads = [] := by
            rcases Nat.min_eq_zero_iff.mp h1 with h | h
            · exact List.length_eq_zero.mp h
            · omega
          exact ⟨rfl, by simp [h1], fun hs => absurd hs hsne,
            fun _ => ⟨by simp [h1], rfl⟩⟩
        · rw [if_neg h1] at hrun
          cases ht : AioEngine.transferAll e content dests fs downloads with
          | mk exc2 atts2 =>
            rw [ht] at hrun
            cases exc2 with
            | error er => simp at hrun
            | ok fs2 =>
              simp only [Except.ok.injEq] at hrun
              subst hrun
              refine ⟨rfl, rfl, fun hs => absurd hs hsne, fun hdl => ?_⟩
              simp only at hdl
              exact absurd (by simp [hdl]) h1

/-- Sample engine, server and inputs for the C5 witness: one folder
source resolving to two files, transferred with no destinations. -/
def engC5 : AioEngine.Engine := AioEngine.engineInit (some (str ("key"))) none

/-- Listing oracle for the C5 witness. -/
def listingC5 : Str → RP.ListingResponse :=
  fun _ => .status 200 (some [str ("/a.txt"), str ("/b.txt")])

/-- Witness for C5 at a concrete run: one source, two discovered files,
`maximum_connection = 2`, hence one discovery worker and two transfer
workers. -/
theorem stage_worker_counts_witness :
    (1 : Nat) ≤ 2 ∧
    (AioEngine.retrieveRecursive engC5 listingC5 (fun _ => str ("data")) ⟨[], []⟩
      [str ("https://h/artifactory/repo/dir")] [] 2).fst =
      .ok ⟨1, [str ("https://h/artifactory/repo/a.txt"),
        str ("https://h/artifactory/repo/b.txt")], 2, ⟨[], []⟩⟩ ∧
    ((1 : Nat) = min 1 2 ∧ (2 : Nat) = min 2 2) :=
  ⟨by decide, by decide, by
    have := stage_worker_counts engC5 listingC5 (fun _ => str ("data")) ⟨[], []⟩
      [str ("https://h/artifactory/repo/dir")] [] 2
      ⟨1, [str ("https://h/artifactory/repo/a.txt"),
        str ("https://h/artifactory/repo/b.txt")], 2, ⟨[], []⟩⟩
      (by decide) (by decide)
    exact ⟨this.1, by simp [this.2.1]⟩⟩

/-! ### Claim C1 — `retrieve` runs the stages but returns nothing

The spec (and the repository's own tests, which iterate the returned
value as `download_list`) promise that `retrieve` returns the list of
transferred source identifiers.  The function body has no `return`
statement: a successful call evaluates to `None`.  Moreover the two
stages run only under `recursive=True`; with the default
`recursive=False` the call opens a session, does nothing, and still
returns `None`. -/

/-- Engine for the C1 run. -/
def engC1 : AioEngine.Engine := AioEngine.engineInit (some (str ("key"))) none

/-- Listing oracle for the C1 run: the folder source resolves to one
file. -/
def listingC1 : Str → RP.ListingResponse :=
  fun _ => .status 200 (some [str ("/a.txt")])

/-- Initial filesystem for the C1 run. -/
def fsC1 : Fs := ⟨[str ("/tmp"), str ("/tmp/out")], []⟩

/-- The C1 run itself: a successful recursive retrieve of one folder
source into one destination. -/
def runC1 : Except PyErr AioEngine.RetrieveOut :=
  (AioEngine.retrieve engC1 listingC1 (fun _ => str ("data")) fsC1
    (.one (str ("https://h/artifactory/repo/dir/"))) (.one (str ("/tmp/out")))
    10 false true).fst

/-- C1, evaluated at the failing input: the run succeeds, one file is
discovered and written to disk, the scalar source and destination were
normalised to one-element lists — and yet the call returns `None`
(`returned = none`), not the accumulated list of transferred source
identifiers; and the same call with `recursive=False` performs no
discovery and no transfer at all. -/
theorem retrieve_returns_none :
    runC1.map (fun o => o.returned) = .ok none ∧
    runC1.map (fun o => o.downloads) =
      .ok [str ("https://h/artifactory/repo/dir/a.txt")] ∧
    runC1.map (fun o => o.fs.files) =
      .ok [(str ("/tmp/out/repo/dir/a.txt"), str ("data"))] ∧
    runC1.map (fun o => o.returned) ≠
      .ok (some [str ("https://h/artifactory/repo/dir/a.txt")]) ∧
    (AioEngine.retrieve engC1 listingC1 (fun _ => str ("data")) fsC1
      (.one (str ("https://h/artifactory/repo/dir/"))) (.one (str ("/tmp/out")))
      10 false false).fst = .ok ⟨0, [], 0, fsC1, none⟩ := by
  decide

/-! ### Claim C10 — missing credentials fail before any request -/

/-- C10: constructed with neither `api_key` nor `token`, a `RemotePath`
(and an `AIOArtifactory`) never assigns `_header`, `_api_key` or
`_token`; every operation that would send an HTTP request — `exists`,
`folder`, the checksums, `get_file_list`, and a recursive `retrieve`
with at least one source — instead raises `AttributeError` before any
request is attempted (the request log stays empty). -/
theorem no_credentials_fail_before_request
    (path : Str) (ssl recursive : Bool) (resp : RP.ListingResponse)
    (field : Option Str) (listing : Str → RP.ListingResponse)
    (content : Str → Str) (fs : Fs) (s : Str) (rest dests : List Str)
    (maxConn : Nat) (quiet : Bool) (hmc : 1 ≤ maxConn) :
    (RP.remotePathInit path none none ssl).apiKey = none ∧
    (RP.remotePathInit path none none ssl).token = none ∧
    (RP.remotePathInit path none none ssl).header = none ∧
    RP.existsOp (RP.remotePathInit path none none ssl) resp =
      (.error .attributeError, []) ∧
    RP.folderOp (RP.remotePathInit path none none ssl) resp =
      (.error .attributeError, []) ∧
    RP.checksumOp (RP.remotePathInit path none none ssl) resp field =
      (.error .attributeError, []) ∧
    RP.getFileList (RP.remotePathInit path none none ssl) recursive resp =
      (.error .attributeError, []) ∧
    (AioEngine.engineInit none none).apiKey = none ∧
    (AioEngine.engineInit none none).token = none ∧
    (AioEngine.engineInit none none).header = none ∧
    AioEngine.retrieve (AioEngine.engineInit none none) listing content fs
      (.many (s :: rest)) (.many dests) maxConn quiet true =
      (.error .attributeError, []) := by
  have hinit : RP.remotePathInit path none none ssl =
      { apiKey := none, token := none, header := none,
        ssl := ssl, parseUrl := pyUrlparse path } := by
    simp [RP.remotePathInit, truthy]
  have heng : AioEngine.engineInit none none =
      { apiKey := none, token := none, header := none } := by
    simp [AioEngine.engineInit, truthy]
  have h0 : ¬ min (s :: rest).length maxConn = 0 := by
    simp only [List.length_cons, Nat.min_eq_zero_iff]
    omega
  refine ⟨by rw [hinit], by rw [hinit], by rw [hinit],
    by rw [hinit]; rfl, by rw [hinit]; rfl, by rw [hinit]; rfl,
    by rw [hinit]; rfl, by rw [heng], by rw [heng], by rw [heng], ?_⟩
  unfold AioEngine.retrieve AioEngine.normalizeArg
  unfold AioEngine.retrieveRecursive
  rw [if_pos rfl, if_neg h0]
  unfold AioEngine.discoverAll AioEngine.retrieveTaskOne
  rw [heng]

/-- Witness for C10 at concrete inputs. -/
theorem no_credentials_fail_before_request_witness :
    (1 : Nat) ≤ 1 ∧
    RP.existsOp (RP.remotePathInit (str ("https://h/artifactory/repo/a.txt"))
      none none true) (.status 200 none) = (.error .attributeError, []) ∧
    AioEngine.retrieve (AioEngine.engineInit none none) (fun _ => .status 200 (some []))
      (fun _ => str ("")) ⟨[], []⟩ (.many [str ("https://h/artifactory/repo/a.txt")])
      (.many []) 1 false true = (.error .attributeError, []) :=
  ⟨by decide, by
    have := no_credentials_fail_before_request
      (str ("https://h/artifactory/repo/a.txt")) true true (.status 200 none)
      none (fun _ => .status 200 (some [])) (fun _ => str ("")) ⟨[], []⟩
      (str ("https://h/artifactory/repo/a.txt")) [] [] 1 false (by decide)
    exact this.2.2.2.1, by
    have := no_credentials_fail_before_request
      (str ("https://h/artifactory/repo/a.txt")) true true (.status 200 none)
      none (fun _ => .status 200 (some [])) (fun _ => str ("")) ⟨[], []⟩
      (str ("https://h/artifactory/repo/a.txt")) [] [] 1 false (by decide)
    exact this.2.2.2.2.2.2.2.2.2.2⟩

/-! ### Well-formed remote URLs

The claims about `location`/`repository` recombination and the
storage-URL round trip quantify over "well-formed remote URLs".  The
predicate below pins that down: a lower-case alphabetic scheme, a
nonempty network location free of path/query/fragment delimiters, an
absolute path of nonempty `.`-free segments free of delimiters, matrix
parameters free of `/?#`, a query free of `#`, and (whenever parameters
are present) a scheme for which `urlparse` performs the parameter
split. -/

def segChar (c : Char) : Bool := !(c = '/' || c = ';' || c = '?' || c = '#')

def segOk (x : Str) : Bool := !x.isEmpty && x != str (".") && x.all segChar

def netChar (c : Char) : Bool := !(c = '/' || c = '?' || c = '#')

def lowerAlpha (c : Char) : Bool := 97 ≤ c.toNat && c.toNat ≤ 122

def schemeOk (s : Str) : Bool := !s.isEmpty && s.all lowerAlpha

def netlocOk (s : Str) : Bool := !s.isEmpty && s != str (".") && s.all netChar

def pathOk (p : Str) : Bool :=
  p.head? = some '/' && (splitChar '/' p.tail).all segOk

def wfUrl (u : ParseResult) : Bool :=
  schemeOk u.scheme && netlocOk u.netloc && pathOk u.path &&
  u.params.all netChar && u.query.all (fun c => !(c = '#')) &&
  (u.params.isEmpty || decide (u.scheme ∈ usesParams))

/-! ### Structural consequences of well-formedness -/

theorem pyJoin_cons {sep : Char} (x : Str) {ys : List Str} (h : ys ≠ []) :
    pyJoin [sep] (x :: ys) = x ++ sep :: pyJoin [sep] ys := by
  cases ys with
  | nil => exact absurd rfl h
  | cons y zs => simp [pyJoin]

theorem pyJoin_head {sep : Char} {x : Str} (ys : List Str) (h : x ≠ []) :
    (pyJoin [sep] (x :: ys)).head? = x.head? := by
  cases ys with
  | nil => simp [pyJoin]
  | cons y zs =>
    rw [pyJoin_cons x (by simp)]
    cases x with
    | nil => exact absurd rfl h
    | cons c t => simp

theorem segOk_props {x : Str} (h : segOk x = true) :
    x ≠ [] ∧ x ≠ str (".") ∧ '/' ∉ x ∧ ';' ∉ x ∧ '?' ∉ x ∧ '#' ∉ x := by
  unfold segOk at h
  simp only [Bool.and_eq_true, List.all_eq_true] at h
  obtain ⟨⟨hne, hdot⟩, hall⟩ := h
  have hne2 : x ≠ [] := by
    cases x
    · simp at hne
    · simp
  have hdot2 : x ≠ str (".") := by
    intro hx
    rw [hx] at hdot
    simp at hdot
  refine ⟨hne2, hdot2, ?_, ?_, ?_, ?_⟩ <;>
    · intro hmem
      have := hall _ hmem
      simp [segChar] at this

theorem keepSeg_of_segOk {x : Str} (h : segOk x = true) : keepSeg x = true := by
  unfold segOk at h
  unfold keepSeg
  simp only [Bool.and_eq_true] at h
  simp [h.1.1, h.1.2]

theorem mem_pyJoin_of_mem {sep c : Char} {xs : List Str} {x : Str}
    (hx : x ∈ xs) (hc : c ∈ x) : c ∈ pyJoin [sep] xs := by
  induction xs with
  | nil => simp at hx
  | cons y ys ih =>
    cases ys with
    | nil =>
      simp only [List.mem_singleton] at hx
      subst hx
      simpa [pyJoin] using hc
    | cons z zs =>
      rw [pyJoin_cons y (by simp)]
      rcases List.mem_cons.mp hx with h1 | h1
      · subst h1
        exact List.mem_append_left _ hc
      · exact List.mem_append_right _ (List.mem_cons_of_mem _ (ih h1))

/-- A segment of a split inherits character membership from the whole
string. -/
theorem mem_of_mem_splitChar {sep c : Char} {s x : Str}
    (hx : x ∈ splitChar sep s) (hc : c ∈ x) : c ∈ s := by
  have := @mem_pyJoin_of_mem sep c (splitChar sep s) x hx hc
  rwa [join_splitChar] at this

theorem not_mem_pyJoin {c sep : Char} {xs : List Str} (hc : c ≠ sep)
    (h : ∀ x ∈ xs, c ∉ x) : c ∉ pyJoin [sep] xs := by
  induction xs with
  | nil => simp [pyJoin]
  | cons x ys ih =>
    cases ys with
    | nil => simpa [pyJoin] using h x (by simp)
    | cons y zs =>
      rw [pyJoin_cons x (by simp)]
      simp only [List.mem_append, List.mem_cons, not_or]
      exact ⟨h x (by simp), hc,
        ih (fun z hz => h z (by simp [hz]))⟩

/-- Shape of a well-formed path: a single leading separator followed by
the separator-joined nonempty segments. -/
theorem pathOk_shape {p : Str} (h : pathOk p = true) :
    p = '/' :: p.tail ∧ (splitChar '/' p.tail).all segOk = true := by
  unfold pathOk at h
  simp only [Bool.and_eq_true] at h
  obtain ⟨hh, hall⟩ := h
  constructor
  · cases p with
    | nil => simp at hh
    | cons c t =>
      simp only [List.head?_cons, Option.some.injEq] at hh
      simp only [decide_eq_true_eq] at hh
      rw [hh]
      rfl
  · exact hall

theorem lstrip_slash_of_segs {t : Str}
    (h : (splitChar '/' t).all segOk = true) : lstripChar '/' ('/' :: t) = t := by
  unfold lstripChar
  rw [List.dropWhile_cons_of_pos (by simp)]
  cases t with
  | nil =>
    exfalso
    simp [splitChar, segOk] at h
  | cons c t2 =>
    by_cases hc : c = '/'
    · exfalso
      subst hc
      simp only [List.all_eq_true] at h
      have : segOk [] = true := h [] (by simp [splitChar])
      simp [segOk] at this
    · rw [List.dropWhile_cons_of_neg (by simp [hc])]

theorem splitChar_slash_cons (t : Str) :
    splitChar '/' ('/' :: t) = [] :: splitChar '/' t := by
  simp [splitChar]

theorem pureRelParts_abs {t : Str}
    (h : (splitChar '/' t).all segOk = true) :
    pureRelParts ('/' :: t) = splitChar '/' t := by
  unfold pureRelParts
  rw [splitChar_slash_cons]
  rw [List.filter_cons_of_neg (by simp [keepSeg])]
  apply List.filter_eq_self.mpr
  intro x hx
  simp only [List.all_eq_true] at h
  exact keepSeg_of_segOk (h x hx)

theorem pureRoot_abs {t : Str}
    (h : (splitChar '/' t).all segOk = true) :
    pureRoot ('/' :: t) = some ['/'] := by
  unfold pureRoot
  rw [if_pos (by simp)]
  cases t with
  | nil =>
    exfalso
    simp [splitChar, segOk] at h
  | cons c t2 =>
    by_cases hc : c = '/'
    · exfalso
      subst hc
      simp only [List.all_eq_true] at h
      have : segOk [] = true := h [] (by simp [splitChar])
      simp [segOk] at this
    · rw [if_neg (by simp [hc])]

theorem pureParts_abs {t : Str}
    (h : (splitChar '/' t).all segOk = true) :
    pureParts ('/' :: t) = ['/'] :: splitChar '/' t := by
  unfold pureParts
  rw [pureRoot_abs h, pureRelParts_abs h]

/-- String form of a relative `PurePath` over separator-free nonempty
segments. -/
theorem pureStr_rel {xs : List Str} (hne : xs ≠ [])
    (h : ∀ x ∈ xs, segOk x = true) :
    pureStr (pyJoin ['/'] xs) = pyJoin ['/'] xs := by
  have hsplit : splitChar '/' (pyJoin ['/'] xs) = xs :=
    splitChar_join hne (fun x hx => (segOk_props (h x hx)).2.2.1)
  have hroot : pureRoot (pyJoin ['/'] xs) = none := by
    cases xs with
    | nil => exact absurd rfl hne
    | cons x ys =>
      have hx0 : x ≠ [] := (segOk_props (h x (by simp))).1
      have hxs : '/' ∉ x := (segOk_props (h x (by simp))).2.2.1
      unfold pureRoot
      rw [pyJoin_head ys hx0]
      cases x with
      | nil => exact absurd rfl hx0
      | cons c t =>
        have hc : c ≠ '/' := fun hcc => hxs (by simp [hcc])
        rw [if_neg (by simp [hc])]
  unfold pureStr
  rw [hroot]
  unfold pureRelParts
  rw [hsplit]
  have hfil : xs.filter keepSeg = xs :=
    List.filter_eq_self.mpr (fun x hx => keepSeg_of_segOk (h x hx))
  rw [hfil]
  cases xs with
  | nil => exact absurd rfl hne
  | cons x ys => rfl

/-! ### Claim C2 — `location`, `repository`, and path recombination -/

/-- C2 (amended, `remotepath.py` side): for a well-formed remote URL
whose path is `/<root>/<repository>/<segments...>` with at least one
segment below the repository and no percent-escapes, the
`remotepath.RemotePath.location` property consists of exactly the
segments after the service root and the repository (excluding both),
`repository` is the second path segment, and prefixing the fixed root
segment and the repository to `location` reproduces the original URL
path. -/
theorem location_repository_recombine
    (u : ParseResult) (s0 s1 : Str) (rest : List Str)
    (hwf : wfUrl u = true)
    (hsegs : splitChar '/' u.path.tail = s0 :: s1 :: rest)
    (hrest : rest ≠ [])
    (hpct : '%' ∉ u.path) :
    RP.repository u = some s1 ∧
    splitChar '/' (RP.location u) = rest ∧
    u.path = '/' :: pyJoin ['/'] [s0, s1, RP.location u] := by
  have hpath : pathOk u.path = true := by
    unfold wfUrl at hwf
    simp only [Bool.and_eq_true] at hwf
    exact hwf.1.1.1.2
  obtain ⟨hshape, hall⟩ := pathOk_shape hpath
  set t := u.path.tail with ht
  have hallsegs : ∀ x ∈ splitChar '/' t, segOk x = true := by
    intro x hx
    simp only [List.all_eq_true] at hall
    exact hall x hx
  have hrestOk : ∀ x ∈ rest, segOk x = true := by
    intro x hx
    exact hallsegs x (by rw [hsegs]; simp [hx])
  have hs1Ok : segOk s1 = true := hallsegs s1 (by rw [hsegs]; simp)
  have hnopct : ∀ x ∈ splitChar '/' t, '%' ∉ x := by
    intro x hx hmem
    apply hpct
    rw [hshape]
    exact List.mem_cons_of_mem _ (mem_of_mem_splitChar hx hmem)
  -- parts of the path
  have hparts : pureParts u.path = ['/'] :: s0 :: s1 :: rest := by
    rw [hshape, pureParts_abs hall, hsegs]
  -- repository
  have hrepo : RP.repository u = some s1 := by
    unfold RP.repository
    rw [hparts]
    show some (pyUnquote s1) = some s1
    rw [pyUnquote_of_no_percent (by
      intro hmem
      exact hnopct s1 (by rw [hsegs]; simp) hmem)]
  -- location
  have hdrop : (pureParts u.path).drop 3 = rest := by rw [hparts]; rfl
  have hjoin_nopct : '%' ∉ pyJoin ['/'] rest :=
    not_mem_pyJoin (by decide)
      (fun x hx => hnopct x (by rw [hsegs]; simp [hx]))
  have hloc : RP.location u = pyJoin ['/'] rest := by
    unfold RP.location
    rw [hdrop, pyUnquote_of_no_percent hjoin_nopct]
    exact pureStr_rel hrest hrestOk
  have hlocsplit : splitChar '/' (RP.location u) = rest := by
    rw [hloc]
    exact splitChar_join hrest
      (fun x hx => (segOk_props (hrestOk x hx)).2.2.1)
  refine ⟨hrepo, hlocsplit, ?_⟩
  -- recombination
  rw [hshape, hloc]
  have ht2 : t = pyJoin ['/'] (s0 :: s1 :: rest) := by
    rw [← hsegs, join_splitChar]
  rw [ht2]
  rw [pyJoin_cons s0 (by simp), pyJoin_cons s1 hrest,
    pyJoin_cons s0 (by simp), pyJoin_cons s1 (by simp)]
  simp [pyJoin]

/-- The well-formed nested-file URL used to witness and to refute C2:
path `/artifactory/repo/dir/file.txt` on `example.com`. -/
def urlC2 : ParseResult :=
  ⟨str ("https"), str ("example.com"), str ("/artifactory/repo/dir/file.txt"),
    [], [], []⟩

/-- Witness for the amended C2 at the sample URL. -/
theorem location_repository_recombine_witness :
    (wfUrl urlC2 = true ∧
      splitChar '/' urlC2.path.tail =
        [str ("artifactory"), str ("repo"), str ("dir"), str ("file.txt")] ∧
      ([str ("dir"), str ("file.txt")] : List Str) ≠ [] ∧ '%' ∉ urlC2.path) ∧
    (RP.repository urlC2 = some (str ("repo")) ∧
      splitChar '/' (RP.location urlC2) = [str ("dir"), str ("file.txt")] ∧
      urlC2.path = '/' :: pyJoin ['/']
        [str ("artifactory"), str ("repo"), RP.location urlC2]) :=
  ⟨⟨by decide, by decide, by decide, by decide⟩,
    location_repository_recombine urlC2 (str ("artifactory")) (str ("repo"))
      [str ("dir"), str ("file.txt")] (by decide) (by decide) (by decide) (by decide)⟩

/-- Counterexample to C2 as stated: the `location` of the `RemotePath`
the package exports (the copy in `aioartifactory.py`, `parts[2:]`) does
NOT exclude the repository segment — for the sample URL it evaluates to
`repo/dir/file.txt`, whose leading segment is exactly the repository
name, rather than to the post-repository suffix `dir/file.txt`. -/
theorem aio_location_keeps_repository :
    AioEngine.location urlC2 = str ("repo/dir/file.txt") ∧
    (splitChar '/' (AioEngine.location urlC2)).head? = some (str ("repo")) ∧
    AioEngine.location urlC2 ≠ str ("dir/file.txt") := by decide

/-! ### Claim C6 — building blocks for the storage-URL round trip -/

theorem pyJoin_append {sep : Char} {xs ys : List Str} (hx : xs ≠ []) (hy : ys ≠ []) :
    pyJoin [sep] (xs ++ ys) = pyJoin [sep] xs ++ sep :: pyJoin [sep] ys := by
  induction xs with
  | nil => exact absurd rfl hx
  | cons x xs2 ih =>
    cases xs2 with
    | nil =>
      simp only [List.singleton_append, pyJoin]
      rw [pyJoin_cons x hy]
    | cons y ys2 =>
      rw [List.cons_append, pyJoin_cons x (by simp),
        pyJoin_cons x (by simp), ih (by simp)]
      simp

/-- Joining treats an element containing the separator exactly like the
two pieces it glues. -/
theorem pyJoin_split_elem {sep : Char} (m1 m2 : Str) (rest : List Str) :
    pyJoin [sep] ((m1 ++ sep :: m2) :: rest) = pyJoin [sep] (m1 :: m2 :: rest) := by
  cases rest with
  | nil => simp [pyJoin]
  | cons r rs =>
    rw [pyJoin_cons _ (by simp), pyJoin_cons m1 (by simp), pyJoin_cons m2 (by simp)]
    simp

theorem lowerAlpha_ne_colon {c : Char} (h : lowerAlpha c = true) : c ≠ ':' := by
  intro hc
  subst hc
  simp [lowerAlpha] at h

theorem asciiLower_of_lowerAlpha {c : Char} (h : lowerAlpha c = true) :
    asciiLower c = c := by
  unfold lowerAlpha at h
  simp only [Bool.and_eq_true, decide_eq_true_eq] at h
  unfold asciiLower
  rw [if_neg (by omega)]

theorem schemeChar_of_lowerAlpha {c : Char} (h : lowerAlpha c = true) :
    schemeChar c = true := by
  unfold lowerAlpha at h
  simp only [Bool.and_eq_true, decide_eq_true_eq] at h
  unfold schemeChar asciiAlpha
  simp only [Bool.or_eq_true, Bool.and_eq_true, decide_eq_true_eq]
  omega

theorem splitScheme_build {scheme rest : Str} (h : schemeOk scheme = true) :
    splitScheme (scheme ++ ':' :: rest) = (scheme, rest) := by
  unfold schemeOk at h
  simp only [Bool.and_eq_true, List.all_eq_true] at h
  obtain ⟨hne, hall⟩ := h
  have hcolon : ∀ c ∈ scheme, ((c != ':') : Bool) := by
    intro c hc
    simpa using lowerAlpha_ne_colon (hall c hc)
  unfold splitScheme
  rw [dropWhile_append_all hcolon, takeWhile_append_all hcolon]
  rw [List.dropWhile_cons_of_neg (by simp), List.takeWhile_cons_of_neg (by simp)]
  simp only [List.append_nil]
  cases scheme with
  | nil => simp at hne
  | cons c pcs =>
    have hifc : (asciiAlpha c && (c :: pcs).all schemeChar) = true := by
      have hca : asciiAlpha c = true := by
        have := hall c (by simp)
        unfold lowerAlpha at this
        simp only [Bool.and_eq_true, decide_eq_true_eq] at this
        unfold asciiAlpha
        simp only [Bool.or_eq_true, Bool.and_eq_true, decide_eq_true_eq]
        omega
      simp only [Bool.and_eq_true, List.all_eq_true]
      exact ⟨hca, fun x hx => schemeChar_of_lowerAlpha (hall x hx)⟩
    dsimp only
    rw [if_pos hifc]
    have hmap : (c :: pcs).map asciiLower = c :: pcs := by
      have hid : ∀ x ∈ c :: pcs, asciiLower x = id x := fun x hx =>
        asciiLower_of_lowerAlpha (hall x hx)
      rw [List.map_congr_left hid, List.map_id]
    rw [hmap]

theorem netChar_props {c : Char} (h : netChar c = true) :
    c ≠ '/' ∧ c ≠ '?' ∧ c ≠ '#' := by
  unfold netChar at h
  simp only [Bool.or_eq_true, Bool.not_eq_true', decide_eq_true_eq] at h
  refine ⟨?_, ?_, ?_⟩ <;> (intro hc; subst hc; simp at h)

theorem netlocOk_props {s : Str} (h : netlocOk s = true) :
    s ≠ [] ∧ s ≠ str (".") ∧ ∀ c ∈ s, c ≠ '/' ∧ c ≠ '?' ∧ c ≠ '#' := by
  unfold netlocOk at h
  simp only [Bool.and_eq_true, List.all_eq_true] at h
  obtain ⟨⟨hne, hdot⟩, hall⟩ := h
  refine ⟨?_, ?_, fun c hc => netChar_props (hall c hc)⟩
  · cases s
    · simp at hne
    · simp
  · intro hx
    rw [hx] at hdot
    simp at hdot

theorem splitNetloc_build {netloc rest : Str} (h : netlocOk netloc = true) :
    splitNetloc ('/' :: '/' :: (netloc ++ '/' :: rest)) = (netloc, '/' :: rest) := by
  obtain ⟨hne, _, hall⟩ := netlocOk_props h
  have hstop : ∀ c ∈ netloc, ((!netlocStop c) : Bool) = true := by
    intro c hc
    obtain ⟨h1, h2, h3⟩ := hall c hc
    simp [netlocStop, h1, h2, h3]
  unfold splitNetloc
  rw [if_pos (by simp)]
  simp only [List.tail_cons]
  rw [takeWhile_append_all hstop, dropWhile_append_all hstop]
  rw [List.takeWhile_cons_of_neg (by simp [netlocStop]),
    List.dropWhile_cons_of_neg (by simp [netlocStop])]
  simp

theorem splitFragment_of_not_mem {a : Str} (h : '#' ∉ a) :
    splitFragment a = (a, []) := by
  unfold splitFragment
  rw [if_neg h]

theorem splitFragment_build {a b : Str} (h : '#' ∉ a) :
    splitFragment (a ++ '#' :: b) = (a, b) := by
  have hall : ∀ c ∈ a, ((c != '#') : Bool) = true := by
    intro c hc
    simp only [bne_iff_ne, ne_eq]
    exact fun hcc => h (hcc ▸ hc)
  unfold splitFragment
  rw [if_pos (by simp)]
  rw [takeWhile_append_all hall, dropWhile_append_all hall]
  rw [List.takeWhile_cons_of_neg (by simp), List.dropWhile_cons_of_neg (by simp)]
  simp

theorem splitQuery_of_not_mem {a : Str} (h : '?' ∉ a) :
    splitQuery a = (a, []) := by
  unfold splitQuery
  rw [if_neg h]

theorem splitQuery_build {a b : Str} (h : '?' ∉ a) :
    splitQuery (a ++ '?' :: b) = (a, b) := by
  have hall : ∀ c ∈ a, ((c != '?') : Bool) = true := by
    intro c hc
    simp only [bne_iff_ne, ne_eq]
    exact fun hcc => h (hcc ▸ hc)
  unfold splitQuery
  rw [if_pos (by simp)]
  rw [takeWhile_append_all hall, dropWhile_append_all hall]
  rw [List.takeWhile_cons_of_neg (by simp), List.dropWhile_cons_of_neg (by simp)]
  simp

theorem splitParams_build {a lastSeg params : Str}
    (hlast1 : '/' ∉ lastSeg) (hlast2 : ';' ∉ lastSeg) (hparams : '/' ∉ params) :
    splitParams (a ++ '/' :: (lastSeg ++ ';' :: params)) =
      (a ++ '/' :: lastSeg, params) := by
  have hnosl : '/' ∉ lastSeg ++ ';' :: params := by
    simp only [List.mem_append, List.mem_cons, not_or]
    exact ⟨hlast1, by simp, hparams⟩
  have hafter := rpartitionAfter_append a (lastSeg ++ ';' :: params) hnosl
  have hbefore := rpartitionBefore_append a (lastSeg ++ ';' :: params) hnosl
  have hallsemi : ∀ c ∈ lastSeg, ((c != ';') : Bool) = true := by
    intro c hc
    simp only [bne_iff_ne, ne_eq]
    exact fun hcc => hlast2 (hcc ▸ hc)
  unfold splitParams
  rw [if_pos (by simp)]
  rw [hafter, hbefore]
  rw [if_pos (by simp)]
  rw [takeWhile_append_all hallsemi, dropWhile_append_all hallsemi]
  rw [List.takeWhile_cons_of_neg (by simp), List.dropWhile_cons_of_neg (by simp)]
  simp

/-- The claim-side removal operation: delete the `api/storage` pair that
`_get_storage_api_path` splices in after the first path segment. -/
def removeStorageSegment (p : Str) : Str :=
  '/' :: pyJoin ['/']
    ((splitChar '/' p.tail).take 1 ++ (splitChar '/' p.tail).drop 3)

/-- C6: for every well-formed remote URL, parsing the string produced by
`_get_storage_api_url` returns the original scheme, network location,
matrix parameters, query and fragment, and a path that — once the
spliced `api/storage` segment pair is removed — is exactly the original
URL path. -/
theorem storage_api_url_round_trip (u : ParseResult) (hwf : wfUrl u = true) :
    (pyUrlparse (RP.getStorageApiUrl u)).scheme = u.scheme ∧
    (pyUrlparse (RP.getStorageApiUrl u)).netloc = u.netloc ∧
    (pyUrlparse (RP.getStorageApiUrl u)).params = u.params ∧
    (pyUrlparse (RP.getStorageApiUrl u)).query = u.query ∧
    (pyUrlparse (RP.getStorageApiUrl u)).fragment = u.fragment ∧
    removeStorageSegment (pyUrlparse (RP.getStorageApiUrl u)).path = u.path := by
  have hw := hwf
  unfold wfUrl at hw
  simp only [Bool.and_eq_true] at hw
  obtain ⟨⟨⟨⟨⟨hsch, hnet⟩, hpath⟩, hparm⟩, hqry⟩, hgate⟩ := hw
  obtain ⟨hshape, hall⟩ := pathOk_shape hpath
  have hallsegs : ∀ x ∈ splitChar '/' u.path.tail, segOk x = true := by
    simp only [List.all_eq_true] at hall
    exact hall
  cases hsegs : splitChar '/' u.path.tail with
  | nil => exact absurd hsegs (splitChar_nonempty _ _)
  | cons s0 srest =>
  have hs0 : segOk s0 = true := hallsegs s0 (by rw [hsegs]; simp)
  have hsrest : ∀ x ∈ srest, segOk x = true := fun x hx =>
    hallsegs x (by rw [hsegs]; simp [hx])
  have hapi : segOk (str ("api")) = true := by decide
  have hsto : segOk (str ("storage")) = true := by decide
  have hLok : ∀ x ∈ s0 :: str ("api") :: str ("storage") :: srest, segOk x = true := by
    intro x hx
    rcases List.mem_cons.mp hx with h1 | hx
    · exact h1 ▸ hs0
    rcases List.mem_cons.mp hx with h1 | hx
    · exact h1 ▸ hapi
    rcases List.mem_cons.mp hx with h1 | hx
    · exact h1 ▸ hsto
    · exact hsrest x hx
  have hLslash : ∀ x ∈ s0 :: str ("api") :: str ("storage") :: srest, '/' ∉ x :=
    fun x hx => (segOk_props (hLok x hx)).2.2.1
  obtain ⟨hnetne, hnetdot, hnetchars⟩ := netlocOk_props hnet
  -- A. the storage API path in normal form
  have hlst : lstripChar '/' u.path = u.path.tail := by
    conv_lhs => rw [hshape]
    exact lstrip_slash_of_segs hall
  have hsp : RP.getStorageApiPath u =
      '/' :: '/' :: pyJoin ['/'] (u.netloc :: s0 :: str ("api") :: str ("storage") :: srest) := by
    unfold RP.getStorageApiPath
    rw [hlst, hsegs]
    have harg : [u.netloc] ++ (s0 :: srest).take 1 ++ [str ("api/storage")] ++
        (s0 :: srest).drop 1 = u.netloc :: s0 :: str ("api/storage") :: srest := by
      simp
    rw [harg]
    have hjoin : pyJoin ['/'] (u.netloc :: s0 :: str ("api/storage") :: srest) =
        pyJoin ['/'] (u.netloc :: s0 :: str ("api") :: str ("storage") :: srest) := by
      rw [pyJoin_cons u.netloc (by simp), pyJoin_cons s0 (by simp),
        pyJoin_cons u.netloc (by simp), pyJoin_cons s0 (by simp)]
      rw [show str ("api/storage") = str ("api") ++ '/' :: str ("storage") by rfl]
      rw [pyJoin_split_elem]
    rw [hjoin]
    unfold pureDoubleSlash
    have hallmem : ∀ x ∈ u.netloc :: s0 :: str ("api") :: str ("storage") :: srest,
        '/' ∉ x := by
      intro x hx
      rcases List.mem_cons.mp hx with h1 | hx2
      · subst h1
        intro hmem
        exact ((hnetchars '/' hmem).1) rfl
      · exact hLslash x hx2
    have hrel : pureRelParts
        (pyJoin ['/'] (u.netloc :: s0 :: str ("api") :: str ("storage") :: srest)) =
        u.netloc :: s0 :: str ("api") :: str ("storage") :: srest := by
      unfold pureRelParts
      rw [splitChar_join (by simp) hallmem]
      apply List.filter_eq_self.mpr
      intro x hx
      rcases List.mem_cons.mp hx with h1 | hx2
      · subst h1
        unfold keepSeg
        simp only [Bool.and_eq_true]
        constructor
        · cases hc : u.netloc
          · exact absurd hc hnetne
          · simp
        · simpa using hnetdot
      · exact keepSeg_of_segOk (hLok x hx2)
    rw [hrel]
  -- B. the full URL in normal form
  have hurl : RP.getStorageApiUrl u = u.scheme ++ ':' ::
      ('/' :: '/' :: (u.netloc ++ '/' ::
        (pyJoin ['/'] (s0 :: str ("api") :: str ("storage") :: srest) ++
          RP.parseUrlTail u))) := by
    unfold RP.getStorageApiUrl
    rw [hsp, pyJoin_cons u.netloc (by simp)]
    simp [List.append_assoc]
  -- characters absent from the body
  have hBsemi : ';' ∉ pyJoin ['/'] (s0 :: str ("api") :: str ("storage") :: srest) :=
    not_mem_pyJoin (by decide) (fun x hx => (segOk_props (hLok x hx)).2.2.2.1)
  have hBq : '?' ∉ pyJoin ['/'] (s0 :: str ("api") :: str ("storage") :: srest) :=
    not_mem_pyJoin (by decide) (fun x hx => (segOk_props (hLok x hx)).2.2.2.2.1)
  have hBh : '#' ∉ pyJoin ['/'] (s0 :: str ("api") :: str ("storage") :: srest) :=
    not_mem_pyJoin (by decide) (fun x hx => (segOk_props (hLok x hx)).2.2.2.2.2)
  have hparmchars : ∀ c ∈ u.params, c ≠ '/' ∧ c ≠ '?' ∧ c ≠ '#' := by
    intro c hc
    simp only [List.all_eq_true] at hparm
    exact netChar_props (hparm c hc)
  have hqrychars : ∀ c ∈ u.query, c ≠ '#' := by
    intro c hc
    simp only [List.all_eq_true] at hqry
    have := hqry c hc
    simp only [Bool.not_eq_true', decide_eq_false_iff_not] at this
    exact this
  -- names for the pieces
  set B := pyJoin ['/'] (s0 :: str ("api") :: str ("storage") :: srest) with hBdef
  set pTail : Str := (if u.params ≠ [] then [';'] else []) ++ u.params with hpTdef
  set qTail : Str := (if u.query ≠ [] then ['?'] else []) ++ u.query with hqTdef
  set fTail : Str := (if u.fragment ≠ [] then ['#'] else []) ++ u.fragment with hfTdef
  have htail : RP.parseUrlTail u = pTail ++ qTail ++ fTail := by
    unfold RP.parseUrlTail
    rw [hpTdef, hqTdef, hfTdef]
    simp [List.append_assoc]
  have hpq_no_hash : '#' ∉ '/' :: (B ++ (pTail ++ qTail)) := by
    simp only [List.mem_cons, List.mem_append, not_or]
    refine ⟨by simp, hBh, ?_, ?_⟩
    · rw [hpTdef]
      simp only [List.mem_append, not_or]
      constructor
      · split <;> simp
      · intro hmem
        exact (hparmchars '#' hmem).2.2 rfl
    · rw [hqTdef]
      simp only [List.mem_append, not_or]
      constructor
      · split <;> simp
      · intro hmem
        exact hqrychars '#' hmem rfl
  have hp_no_query : '?' ∉ '/' :: (B ++ pTail) := by
    simp only [List.mem_cons, List.mem_append, not_or]
    refine ⟨by simp, hBq, ?_⟩
    rw [hpTdef]
    simp only [List.mem_append, not_or]
    constructor
    · split <;> simp
    · intro hmem
      exact (hparmchars '?' hmem).2.1 rfl
  -- C. run the parser
  have h1 : splitScheme (RP.getStorageApiUrl u) =
      (u.scheme, '/' :: '/' :: (u.netloc ++ '/' :: (B ++ RP.parseUrlTail u))) := by
    rw [hurl]
    exact splitScheme_build hsch
  have h2 : splitNetloc ('/' :: '/' :: (u.netloc ++ '/' :: (B ++ RP.parseUrlTail u))) =
      (u.netloc, '/' :: (B ++ RP.parseUrlTail u)) := splitNetloc_build hnet
  have h3 : splitFragment ('/' :: (B ++ RP.parseUrlTail u)) =
      ('/' :: (B ++ (pTail ++ qTail)), u.fragment) := by
    rw [htail]
    by_cases hf : u.fragment = []
    · rw [hfTdef]
      rw [if_neg (by simp [hf])]
      rw [hf]
      simp only [List.append_nil]
      exact splitFragment_of_not_mem hpq_no_hash
    · rw [hfTdef, if_pos hf]
      simp only [List.singleton_append]
      have hshape2 : '/' :: (B ++ (pTail ++ qTail ++ ('#' :: u.fragment))) =
          ('/' :: (B ++ (pTail ++ qTail))) ++ '#' :: u.fragment := by
        simp [List.append_assoc]
      rw [hshape2]
      exact splitFragment_build hpq_no_hash
  have h4 : splitQuery ('/' :: (B ++ (pTail ++ qTail))) =
      ('/' :: (B ++ pTail), u.query) := by
    by_cases hq : u.query = []
    · rw [hqTdef]
      rw [if_neg (by simp [hq])]
      rw [hq]
      simp only [List.append_nil]
      exact splitQuery_of_not_mem hp_no_query
    · rw [hqTdef, if_pos hq]
      simp only [List.singleton_append]
      have hshape2 : '/' :: (B ++ (pTail ++ ('?' :: u.query))) =
          ('/' :: (B ++ pTail)) ++ '?' :: u.query := by
        simp [List.append_assoc]
      rw [hshape2]
      exact splitQuery_build hp_no_query
  -- D. the parameter split
  have hfinal : pyUrlparse (RP.getStorageApiUrl u) =
      ⟨u.scheme, u.netloc, '/' :: B, u.params, u.query, u.fragment⟩ := by
    unfold pyUrlparse
    rw [h1]
    dsimp only
    rw [h2]
    dsimp only
    rw [h3]
    dsimp only
    rw [h4]
    dsimp only
    by_cases hp : u.params = []
    · have hpT : pTail = [] := by
        rw [hpTdef]
        simp [hp]
      rw [hpT, hp]
      simp only [List.append_nil]
      have hcnd : ¬ (u.scheme ∈ usesParams ∧ ';' ∈ ('/' :: B : Str)) := by
        intro hcond
        rcases List.mem_cons.mp hcond.2 with h | h
        · simp at h
        · exact hBsemi h
      rw [if_neg hcnd]
    · rw [hpTdef, if_pos hp]
      simp only [List.singleton_append]
      rw [if_pos ?_]
      swap
      · constructor
        · have : u.params.isEmpty = false := by
            cases hc : u.params
            · exact absurd hc hp
            · simp
          rw [this] at hgate
          simpa using hgate
        · simp
      -- decompose the body into its last segment
      obtain ⟨Linit, lastSeg, hLdec⟩ :
          ∃ Linit lastSeg, s0 :: str ("api") :: str ("storage") :: srest =
            Linit ++ [lastSeg] := by
        rcases List.eq_nil_or_concat (s0 :: str ("api") :: str ("storage") :: srest)
          with h | ⟨Linit, lastSeg, h⟩
        · simp at h
        · exact ⟨Linit, lastSeg, by simpa [List.concat_eq_append] using h⟩
      have hLinitne : Linit ≠ [] := by
        intro h0
        rw [h0] at hLdec
        simp at hLdec
      have hlastOk : segOk lastSeg = true := hLok lastSeg (by rw [hLdec]; simp)
      have hBsplit : B = pyJoin ['/'] Linit ++ '/' :: lastSeg := by
        rw [hBdef, hLdec]
        exact pyJoin_append hLinitne (by simp)
      have hshape3 : '/' :: (B ++ (';' :: u.params)) =
          ('/' :: pyJoin ['/'] Linit) ++ '/' :: (lastSeg ++ ';' :: u.params) := by
        rw [hBsplit]
        simp [List.append_assoc]
      rw [hshape3]
      rw [splitParams_build (segOk_props hlastOk).2.2.1 (segOk_props hlastOk).2.2.2.1
        (fun hmem => ((hparmchars '/' hmem).1 rfl))]
      have hback : ('/' :: pyJoin ['/'] Linit) ++ '/' :: lastSeg = '/' :: B := by
        rw [hBsplit]
        simp
      rw [hback]
  -- E. conclude
  rw [hfinal]
  refine ⟨rfl, rfl, rfl, rfl, rfl, ?_⟩
  unfold removeStorageSegment
  have hsplitB : splitChar '/' ('/' :: B).tail =
      s0 :: str ("api") :: str ("storage") :: srest := by
    rw [List.tail_cons, hBdef]
    exact splitChar_join (by simp) hLslash
  rw [hsplitB]
  have htake : (s0 :: str ("api") :: str ("storage") :: srest).take 1 ++
      (s0 :: str ("api") :: str ("storage") :: srest).drop 3 = s0 :: srest := by
    simp
  rw [htake, hshape]
  have : u.path.tail = pyJoin ['/'] (s0 :: srest) := by
    rw [← hsegs, join_splitChar]
  rw [this]

/-- Sample well-formed URL for C6, with matrix parameters, query and
fragment all present on a nested file path. -/
def urlC6 : ParseResult :=
  ⟨str ("https"), str ("example.com"), str ("/artifactory/repo/dir/file.txt"),
    str ("a=1"), str ("q=2"), str ("top")⟩

/-- Witness for C6 at the sample URL, together with the concrete storage
URL the builder produces there. -/
theorem storage_api_url_round_trip_witness :
    wfUrl urlC6 = true ∧
    RP.getStorageApiUrl urlC6 =
      str ("https://example.com/artifactory/api/storage/repo/dir/file.txt;a=1?q=2#top") ∧
    ((pyUrlparse (RP.getStorageApiUrl urlC6)).scheme = urlC6.scheme ∧
      (pyUrlparse (RP.getStorageApiUrl urlC6)).netloc = urlC6.netloc ∧
      (pyUrlparse (RP.getStorageApiUrl urlC6)).params = urlC6.params ∧
      (pyUrlparse (RP.getStorageApiUrl urlC6)).query = urlC6.query ∧
      (pyUrlparse (RP.getStorageApiUrl urlC6)).fragment = urlC6.fragment ∧
      removeStorageSegment (pyUrlparse (RP.getStorageApiUrl urlC6)).path = urlC6.path) :=
  ⟨by decide, by decide, storage_api_url_round_trip urlC6 (by decide)⟩
